import Mathlib

/-!
# SnapFlow-Core : verification of the shared utilities and pipeline stages

Shallow embedding of the parts of the SnapFlow-Core repository that the
checked properties talk about, together with proofs (or refutations) of the
properties.  Strings are modelled as lists of unicode characters; the ASCII
fragment of Python's case mapping and character classes is embedded exactly,
and every definition states in its doc comment which source function it
translates.
-/

namespace SnapFlow

/-! ## lib/shared/utils/file_utils.py -/

/-- ASCII lower-casing, the fragment of Python `str.lower` exercised by the
repository (all paths and prefixes it builds are ASCII). `'A'..'Z'` map to
`'a'..'z'`; every other character is left alone. -/
def pyLower (c : Char) : Char :=
  if 'A' ≤ c ∧ c ≤ 'Z' then Char.ofNat (c.toNat + 32) else c

/-- ASCII upper-casing, fragment of Python `str.upper`. -/
def pyUpper (c : Char) : Char :=
  if 'a' ≤ c ∧ c ≤ 'z' then Char.ofNat (c.toNat - 32) else c

/-- One step of the slash-collapsing loop of `normalize_dropbox_path`
(`while '//' in normalized: normalized = normalized.replace('//', '/')`).
The loop's fixpoint replaces every maximal run of `/` by a single `/`;
`collapseSlashesAux b l` is that fixpoint, where `b` records whether the
previous emitted character was a `/`. -/
def collapseSlashesAux : Bool → List Char → List Char
  | _, [] => []
  | prevSlash, c :: rest =>
    if c = '/' then
      if prevSlash then collapseSlashesAux true rest
      else '/' :: collapseSlashesAux true rest
    else c :: collapseSlashesAux false rest

/-- Collapse duplicate slashes (net effect of the source's `replace` loop). -/
def collapseSlashes (l : List Char) : List Char := collapseSlashesAux false l

/-- `path.replace('\\', '/')` — backslashes to forward slashes. -/
def nzSlashes (l : List Char) : List Char :=
  l.map fun c => if c = '\\' then '/' else c

/-- `if not normalized.startswith('/'): normalized = '/' + normalized`. -/
def nzLead (l : List Char) : List Char :=
  if l.head? = some '/' then l else '/' :: l

/-- `if len(normalized) > 1 and normalized.endswith('/'): normalized = normalized[:-1]`. -/
def nzTrail (l : List Char) : List Char :=
  if 1 < l.length ∧ l.getLast? = some '/' then l.dropLast else l

/-- `normalize_dropbox_path` from `lib/shared/utils/file_utils.py`:
backslashes to forward slashes, leading slash enforced, duplicate slashes
collapsed, trailing slash stripped unless root, lower-cased.  The empty
string is returned unchanged (`if not path: return path`). -/
def normalize_dropbox_path (path : List Char) : List Char :=
  if path = [] then path
  else (nzTrail (collapseSlashes (nzLead (nzSlashes path)))).map pyLower

/-- ASCII fragment of Python's regex class `\w` (word character):
letters, digits and the underscore.  (On non-ASCII input Python's `\w`
additionally matches unicode word characters; the sanitizer is analysed on
ASCII input, where the two agree.) -/
def isWordChar (c : Char) : Bool :=
  ('A' ≤ c ∧ c ≤ 'Z') ∨ ('a' ≤ c ∧ c ≤ 'z') ∨ ('0' ≤ c ∧ c ≤ '9') ∨ c = '_'

/-- ASCII fragment of Python's regex class `\s`. -/
def isPySpace (c : Char) : Bool :=
  c = ' ' ∨ c = '\t' ∨ c = '\n' ∨ c = '\r' ∨ c = '\x0b' ∨ c = '\x0c' ∨
  (28 ≤ c.toNat ∧ c.toNat ≤ 31)

/-- `re.sub(r'[^\w\-\s]', '_', prefix)`: every character that is not a word
character, hyphen or whitespace becomes an underscore. -/
def sanitizeStep1 (l : List Char) : List Char :=
  l.map fun c => if isWordChar c ∨ c = '-' ∨ isPySpace c then c else '_'

/-- Separator class of the second substitution, `[\s_]`. -/
def isSep (c : Char) : Bool := isPySpace c ∨ c = '_'

/-- `re.sub(r'[\s_]+', '_', sanitized)`: each maximal run of whitespace or
underscores becomes one underscore.  The flag records whether the previous
input character belonged to the run being replaced. -/
def sanitizeStep2Aux : Bool → List Char → List Char
  | _, [] => []
  | inSep, c :: rest =>
    if isSep c then
      if inSep then sanitizeStep2Aux true rest
      else '_' :: sanitizeStep2Aux true rest
    else c :: sanitizeStep2Aux false rest

def sanitizeStep2 (l : List Char) : List Char := sanitizeStep2Aux false l

/-- `sanitized.strip('_')`: remove leading and trailing underscores. -/
def stripUnderscores (l : List Char) : List Char :=
  ((l.dropWhile (· = '_')).reverse.dropWhile (· = '_')).reverse

/-- `sanitize_filename_prefix` from `lib/shared/utils/file_utils.py`:
replace unsafe characters with `_`, collapse whitespace/underscore runs,
strip leading/trailing underscores, then truncate to 50 characters.
The empty string is returned for empty input (`if not prefix: return ""`). -/
def sanitize_filename_pfx (pfx : List Char) : List Char :=
  if pfx = [] then []
  else (stripUnderscores (sanitizeStep2 (sanitizeStep1 pfx))).take 50

/-! ### Lemmas about the path normalizer -/

/-- The relation "not two adjacent slashes". -/
def noSlashPair (a b : Char) : Prop := ¬(a = '/' ∧ b = '/')

theorem char_toNat_ofNat_of_lt {n : Nat} (h : n < 55296) : (Char.ofNat n).toNat = n := by
  unfold Char.ofNat
  rw [dif_pos (Or.inl h)]
  simp [Char.ofNatAux, Char.toNat, UInt32.toNat, BitVec.toNat_ofNat]

theorem char_le_iff {a b : Char} : a ≤ b ↔ a.toNat ≤ b.toNat := Iff.rfl

theorem pyLower_toNat_of_upper {c : Char} (h : 'A' ≤ c ∧ c ≤ 'Z') :
    (pyLower c).toNat = c.toNat + 32 := by
  unfold pyLower
  rw [if_pos h]
  have h90 : c.toNat ≤ 90 := h.2
  exact char_toNat_ofNat_of_lt (by omega)

theorem pyLower_of_not_upper {c : Char} (h : ¬('A' ≤ c ∧ c ≤ 'Z')) :
    pyLower c = c := if_neg h

theorem pyLower_idem (c : Char) : pyLower (pyLower c) = pyLower c := by
  by_cases h : 'A' ≤ c ∧ c ≤ 'Z'
  · have hv := pyLower_toNat_of_upper h
    have h65 : 65 ≤ c.toNat := h.1
    have h90 : c.toNat ≤ 90 := h.2
    have hz : ('Z' : Char).toNat = 90 := rfl
    refine pyLower_of_not_upper ?_
    intro hcon
    have h2 := char_le_iff.mp hcon.2
    rw [hz] at h2
    omega
  · rw [pyLower_of_not_upper h]
    exact pyLower_of_not_upper h

theorem pyLower_eq_of_ne_upper {c d : Char} (h : pyLower c = d)
    (hd : ¬(97 ≤ d.toNat ∧ d.toNat ≤ 122)) : c = d := by
  by_cases hc : 'A' ≤ c ∧ c ≤ 'Z'
  · have hv := pyLower_toNat_of_upper hc
    have h65 : 65 ≤ c.toNat := hc.1
    have h90 : c.toNat ≤ 90 := hc.2
    rw [h] at hv
    omega
  · unfold pyLower at h
    rwa [if_neg hc] at h

theorem pyLower_eq_slash {c : Char} (h : pyLower c = '/') : c = '/' :=
  pyLower_eq_of_ne_upper h (by decide)

theorem pyLower_eq_backslash {c : Char} (h : pyLower c = '\\') : c = '\\' :=
  pyLower_eq_of_ne_upper h (by decide)

theorem mem_collapseSlashesAux {c : Char} :
    ∀ (b : Bool) (l : List Char), c ∈ collapseSlashesAux b l → c ∈ l := by
  intro b l
  induction l generalizing b with
  | nil => simp [collapseSlashesAux]
  | cons a t ih =>
    intro hmem
    unfold collapseSlashesAux at hmem
    by_cases ha : a = '/'
    · rw [if_pos ha] at hmem
      cases b with
      | true => exact List.mem_cons_of_mem a (ih true hmem)
      | false =>
        simp only [if_neg (by simp : ¬(false = true))] at hmem
        rcases List.mem_cons.mp hmem with h | h
        · exact h ▸ ha ▸ List.mem_cons_self a t
        · exact List.mem_cons_of_mem a (ih true h)
    · rw [if_neg ha] at hmem
      rcases List.mem_cons.mp hmem with h | h
      · exact h ▸ List.mem_cons_self a t
      · exact List.mem_cons_of_mem a (ih false h)

theorem head?_collapseSlashesAux_true :
    ∀ l : List Char, (collapseSlashesAux true l).head? ≠ some '/' := by
  intro l
  induction l with
  | nil => simp [collapseSlashesAux]
  | cons a t ih =>
    unfold collapseSlashesAux
    by_cases ha : a = '/'
    · simpa [ha] using ih
    · simp [ha]

theorem chain'_collapseSlashesAux :
    ∀ (b : Bool) (l : List Char), (collapseSlashesAux b l).Chain' noSlashPair := by
  intro b l
  induction l generalizing b with
  | nil => simp [collapseSlashesAux]
  | cons a t ih =>
    unfold collapseSlashesAux
    by_cases ha : a = '/'
    · rw [if_pos ha]
      cases b with
      | true => exact ih true
      | false =>
        simp only [if_neg (by simp : ¬(false = true))]
        refine List.chain'_cons'.mpr ⟨?_, ih true⟩
        intro y hy
        intro hcon
        exact head?_collapseSlashesAux_true t (by rw [hy, hcon.2])
    · rw [if_neg ha]
      refine List.chain'_cons'.mpr ⟨?_, ih false⟩
      intro y hy hcon
      exact ha hcon.1

theorem collapseSlashesAux_id :
    ∀ (b : Bool) (l : List Char), l.Chain' noSlashPair →
      (b = true → l.head? ≠ some '/') → collapseSlashesAux b l = l := by
  intro b l
  induction l generalizing b with
  | nil => intro _ _; rfl
  | cons a t ih =>
    intro hchain hhead
    unfold collapseSlashesAux
    by_cases ha : a = '/'
    · rw [if_pos ha]
      cases b with
      | true => exact absurd (by rw [ha]; rfl) (hhead rfl)
      | false =>
        simp only [if_neg (by simp : ¬(false = true))]
        have ht : collapseSlashesAux true t = t := by
          refine ih true (List.chain'_cons'.mp hchain).2 ?_
          intro _ hcon
          rcases t with _ | ⟨x, t'⟩
          · simp at hcon
          · have := (List.chain'_cons'.mp hchain).1 x rfl
            simp only [List.head?_cons, Option.some.injEq] at hcon
            exact this ⟨ha, hcon⟩
        rw [ht, ha]
    · rw [if_neg ha]
      have ht : collapseSlashesAux false t = t :=
        ih false (List.chain'_cons'.mp hchain).2 (by intro h; cases h)
      rw [ht]

theorem head?_collapseSlashesAux_false_slash (l : List Char) :
    (collapseSlashesAux false ('/' :: l)).head? = some '/' := by
  unfold collapseSlashesAux
  simp

theorem head?_nzLead (l : List Char) : (nzLead l).head? = some '/' := by
  unfold nzLead
  by_cases h : l.head? = some '/'
  · rwa [if_pos h]
  · rw [if_neg h]
    rfl

theorem head?_collapseSlashes {l : List Char} (h : l.head? = some '/') :
    (collapseSlashes l).head? = some '/' := by
  rcases l with _ | ⟨a, t⟩
  · cases h
  · have ha : a = '/' := by simpa using h
    subst ha
    exact head?_collapseSlashesAux_false_slash t

theorem head?_dropLast_of_one_lt {l : List Char} (h : 1 < l.length) :
    l.dropLast.head? = l.head? := by
  rcases l with _ | ⟨a, t⟩
  · simp at h
  · rcases t with _ | ⟨b, t'⟩
    · simp at h
    · rw [List.dropLast_cons₂]
      rfl

theorem head?_nzTrail {l : List Char} (h : l.head? = some '/') :
    (nzTrail l).head? = some '/' := by
  unfold nzTrail
  by_cases hc : 1 < l.length ∧ l.getLast? = some '/'
  · rw [if_pos hc, head?_dropLast_of_one_lt hc.1, h]
  · rwa [if_neg hc]

theorem chain'_nzTrail {l : List Char} (h : l.Chain' noSlashPair) :
    (nzTrail l).Chain' noSlashPair := by
  unfold nzTrail
  by_cases hc : 1 < l.length ∧ l.getLast? = some '/'
  · rw [if_pos hc]
    exact h.prefix (List.dropLast_prefix l)
  · rwa [if_neg hc]

theorem mem_nzTrail {c : Char} {l : List Char} (h : c ∈ nzTrail l) : c ∈ l := by
  unfold nzTrail at h
  by_cases hc : 1 < l.length ∧ l.getLast? = some '/'
  · rw [if_pos hc] at h
    exact (List.dropLast_prefix l).sublist.mem h
  · rwa [if_neg hc] at h

theorem getLast?_nzTrail {l : List Char} (hch : l.Chain' noSlashPair)
    (hlen : 1 < (nzTrail l).length) : (nzTrail l).getLast? ≠ some '/' := by
  unfold nzTrail at hlen ⊢
  by_cases hc : 1 < l.length ∧ l.getLast? = some '/'
  · rw [if_pos hc] at hlen ⊢
    intro hcon
    have hsplit : l.dropLast ++ ['/'] = l := List.dropLast_append_getLast? '/' hc.2
    have hch2 : ∀ x ∈ l.dropLast.getLast?, ∀ y ∈ (['/'] : List Char).head?,
        noSlashPair x y := by
      have := List.chain'_append.mp (hsplit ▸ hch)
      exact this.2.2
    have := hch2 '/' hcon '/' rfl
    exact this ⟨rfl, rfl⟩
  · rw [if_neg hc] at hlen ⊢
    intro hcon
    exact hc ⟨hlen, hcon⟩

/-- **C9.** Path normalization is idempotent:
`normalize(normalize(p)) == normalize(p)` for every string `p`, the empty
string (returned unchanged) included. -/
theorem normalize_dropbox_path_idem (p : List Char) :
    normalize_dropbox_path (normalize_dropbox_path p) = normalize_dropbox_path p := by
  by_cases hp : p = []
  · simp [normalize_dropbox_path, hp]
  · have hqdef : normalize_dropbox_path p =
        (nzTrail (collapseSlashes (nzLead (nzSlashes p)))).map pyLower := by
      rw [normalize_dropbox_path, if_neg hp]
    have h3head : (collapseSlashes (nzLead (nzSlashes p))).head? = some '/' :=
      head?_collapseSlashes (head?_nzLead _)
    have h3chain : (collapseSlashes (nzLead (nzSlashes p))).Chain' noSlashPair :=
      chain'_collapseSlashesAux false _
    have h4chain := chain'_nzTrail h3chain
    have h4head := head?_nzTrail h3head
    have hsl : pyLower '/' = '/' := pyLower_of_not_upper (by decide)
    have hqhead : (normalize_dropbox_path p).head? = some '/' := by
      rw [hqdef, List.head?_map, h4head, Option.map_some', hsl]
    have hqne : normalize_dropbox_path p ≠ [] := by
      intro h
      rw [h] at hqhead
      cases hqhead
    have hqnb : ∀ c ∈ normalize_dropbox_path p, c ≠ '\\' := by
      intro c hc
      rw [hqdef] at hc
      rcases List.mem_map.mp hc with ⟨d, hd, hdc⟩
      have hd3 := mem_collapseSlashesAux false _ (mem_nzTrail hd)
      have hdnb : d ≠ '\\' := by
        have hmem : d = '/' ∨ d ∈ nzSlashes p := by
          unfold nzLead at hd3
          by_cases hh : (nzSlashes p).head? = some '/'
          · rw [if_pos hh] at hd3
            exact Or.inr hd3
          · rw [if_neg hh] at hd3
            rcases List.mem_cons.mp hd3 with h | h
            · exact Or.inl h
            · exact Or.inr h
        rcases hmem with h | h
        · rw [h]; decide
        · rcases List.mem_map.mp h with ⟨e, _, he⟩
          intro hcon
          rw [hcon] at he
          by_cases hee : e = '\\'
          · rw [if_pos hee] at he
            cases he
          · rw [if_neg hee] at he
            exact hee he
      intro hcon
      rw [hcon] at hdc
      exact hdnb (pyLower_eq_backslash hdc)
    have hqchain : (normalize_dropbox_path p).Chain' noSlashPair := by
      rw [hqdef]
      refine List.chain'_map_of_chain' pyLower ?_ h4chain
      intro a b hab hcon
      exact hab ⟨pyLower_eq_slash hcon.1, pyLower_eq_slash hcon.2⟩
    have hqlast : (normalize_dropbox_path p).getLast? = some '/' →
        ¬(1 < (normalize_dropbox_path p).length) := by
      intro hl hlen
      rw [hqdef, List.getLast?_map] at hl
      rcases (nzTrail (collapseSlashes (nzLead (nzSlashes p)))).getLast?.eq_none_or_eq_some
        with h | ⟨d, h⟩
      · rw [h] at hl
        cases hl
      · rw [h] at hl
        have hd : d = '/' := pyLower_eq_slash (Option.some.inj hl)
        rw [hqdef, List.length_map] at hlen
        exact getLast?_nzTrail h3chain hlen (hd ▸ h)
    rw [show normalize_dropbox_path (normalize_dropbox_path p) =
        (nzTrail (collapseSlashes (nzLead (nzSlashes
          (normalize_dropbox_path p))))).map pyLower from by
      rw [normalize_dropbox_path, if_neg hqne]]
    have e1 : nzSlashes (normalize_dropbox_path p) = normalize_dropbox_path p := by
      unfold nzSlashes
      have hcong : ∀ a ∈ normalize_dropbox_path p,
          (if a = '\\' then '/' else a) = id a := by
        intro a ha
        rw [if_neg (hqnb a ha)]
        rfl
      rw [List.map_congr_left hcong, List.map_id]
    have e2 : nzLead (normalize_dropbox_path p) = normalize_dropbox_path p := by
      unfold nzLead
      rw [if_pos hqhead]
    have e3 : collapseSlashes (normalize_dropbox_path p) = normalize_dropbox_path p :=
      collapseSlashesAux_id false _ hqchain (by intro h; cases h)
    have e4 : nzTrail (normalize_dropbox_path p) = normalize_dropbox_path p := by
      unfold nzTrail
      rw [if_neg ?_]
      intro hcon
      exact hqlast hcon.2 hcon.1
    rw [e1, e2, e3, e4]
    conv_lhs => rw [hqdef]
    conv_rhs => rw [hqdef]
    rw [List.map_map]
    exact List.map_congr_left fun a _ => pyLower_idem a

/-! ### Lemmas about the filename-prefix sanitizer -/

theorem mem_sanitizeStep1 {c : Char} {l : List Char} (h : c ∈ sanitizeStep1 l) :
    isWordChar c = true ∨ c = '-' ∨ isPySpace c = true := by
  rcases List.mem_map.mp h with ⟨d, _, hd⟩
  by_cases hcond : isWordChar d ∨ d = '-' ∨ isPySpace d
  · rw [if_pos hcond] at hd
    subst hd
    rcases hcond with h | h | h
    · exact Or.inl h
    · exact Or.inr (Or.inl h)
    · exact Or.inr (Or.inr h)
  · rw [if_neg hcond] at hd
    subst hd
    left
    decide

theorem mem_sanitizeStep2Aux {c : Char} :
    ∀ (b : Bool) (l : List Char), c ∈ sanitizeStep2Aux b l →
      c = '_' ∨ (c ∈ l ∧ isSep c = false) := by
  intro b l
  induction l generalizing b with
  | nil => simp [sanitizeStep2Aux]
  | cons a t ih =>
    intro hmem
    unfold sanitizeStep2Aux at hmem
    by_cases ha : isSep a = true
    · rw [if_pos ha] at hmem
      cases b with
      | true =>
        rcases ih true hmem with h | ⟨h1, h2⟩
        · exact Or.inl h
        · exact Or.inr ⟨List.mem_cons_of_mem a h1, h2⟩
      | false =>
        simp only [if_neg (by simp : ¬(false = true))] at hmem
        rcases List.mem_cons.mp hmem with h | h
        · exact Or.inl h
        · rcases ih true h with h' | ⟨h1, h2⟩
          · exact Or.inl h'
          · exact Or.inr ⟨List.mem_cons_of_mem a h1, h2⟩
    · rw [if_neg ha] at hmem
      rcases List.mem_cons.mp hmem with h | h
      · subst h
        exact Or.inr ⟨List.mem_cons_self c t, by simpa using ha⟩
      · rcases ih false h with h' | ⟨h1, h2⟩
        · exact Or.inl h'
        · exact Or.inr ⟨List.mem_cons_of_mem a h1, h2⟩

theorem mem_stripUnderscores {c : Char} {l : List Char}
    (h : c ∈ stripUnderscores l) : c ∈ l := by
  unfold stripUnderscores at h
  rw [List.mem_reverse] at h
  have h2 := (List.dropWhile_sublist _).mem h
  rw [List.mem_reverse] at h2
  exact (List.dropWhile_sublist _).mem h2

theorem stripUnderscores_prefix_dropWhile (l : List Char) :
    stripUnderscores l <+: l.dropWhile (· = '_') := by
  unfold stripUnderscores
  have hsuf : (l.dropWhile (· = '_')).reverse.dropWhile (· = '_') <:+
      (l.dropWhile (· = '_')).reverse := List.dropWhile_suffix _
  have := List.reverse_prefix.mpr hsuf
  rwa [List.reverse_reverse] at this

theorem head?_dropWhile_false {p : Char → Bool} {c : Char} :
    ∀ {l : List Char}, (l.dropWhile p).head? = some c → p c = false := by
  intro l
  induction l with
  | nil => intro h; cases h
  | cons a t ih =>
    intro h
    rw [List.dropWhile_cons] at h
    by_cases ha : p a = true
    · rw [if_pos ha] at h
      exact ih h
    · rw [if_neg ha] at h
      cases h
      simpa using ha

theorem isPrefix_head?_eq {l₁ l₂ : List Char} {c : Char} (h : l₁ <+: l₂)
    (hh : l₁.head? = some c) : l₂.head? = some c := by
  rcases h with ⟨t, rfl⟩
  rcases l₁ with _ | ⟨a, t'⟩
  · cases hh
  · simpa using hh

theorem head?_take_fifty {l : List Char} {c : Char}
    (h : (l.take 50).head? = some c) : l.head? = some c := by
  rcases l with _ | ⟨a, t⟩
  · cases h
  · simpa using h

/-- **C8 (amended).** For every ASCII input string, the sanitized
filename prefix contains only characters from `[A-Za-z0-9_-]`, has length
at most 50 and never starts with an underscore.  (The original claim also
rules out a trailing underscore; that part is refuted by
`sanitize_filename_pfx_trailing_underscore` below, because the source
truncates to 50 characters only after stripping underscores.) -/
theorem sanitize_filename_pfx_props (pfx : List Char)
    (hascii : ∀ c ∈ pfx, c.toNat < 128) :
    (∀ c ∈ sanitize_filename_pfx pfx,
        ('A' ≤ c ∧ c ≤ 'Z') ∨ ('a' ≤ c ∧ c ≤ 'z') ∨ ('0' ≤ c ∧ c ≤ '9') ∨
          c = '_' ∨ c = '-') ∧
    (sanitize_filename_pfx pfx).length ≤ 50 ∧
    (∀ c, (sanitize_filename_pfx pfx).head? = some c → c ≠ '_') := by
  by_cases hp : pfx = []
  · refine ⟨?_, ?_, ?_⟩ <;> simp [sanitize_filename_pfx, hp]
  · have hdef : sanitize_filename_pfx pfx =
        (stripUnderscores (sanitizeStep2 (sanitizeStep1 pfx))).take 50 := by
      rw [sanitize_filename_pfx, if_neg hp]
    refine ⟨?_, ?_, ?_⟩
    · intro c hc
      rw [hdef] at hc
      have h1 : c ∈ stripUnderscores (sanitizeStep2 (sanitizeStep1 pfx)) :=
        (List.take_sublist 50 _).mem hc
      have h2 := mem_stripUnderscores h1
      rcases mem_sanitizeStep2Aux false _ h2 with h | ⟨h3, h4⟩
      · subst h
        right; right; right; left; rfl
      · rcases mem_sanitizeStep1 h3 with h | h | h
        · unfold isWordChar at h
          have := of_decide_eq_true h
          rcases this with h' | h' | h' | h'
          · exact Or.inl h'
          · exact Or.inr (Or.inl h')
          · exact Or.inr (Or.inr (Or.inl h'))
          · exact Or.inr (Or.inr (Or.inr (Or.inl h')))
        · right; right; right; right; exact h
        · simp [isSep, h] at h4
    · rw [hdef, List.length_take]
      exact min_le_left _ _
    · intro c hc
      rw [hdef] at hc
      have h1 := head?_take_fifty hc
      have h2 := isPrefix_head?_eq
        (stripUnderscores_prefix_dropWhile (sanitizeStep2 (sanitizeStep1 pfx))) h1
      have h3 := head?_dropWhile_false h2
      intro hcon
      rw [hcon] at h3
      simp at h3

/-- Witness for `sanitize_filename_pfx_props` at the concrete input
`"Photo Set"`. -/
theorem sanitize_filename_pfx_props_witness :
    (∀ c ∈ sanitize_filename_pfx
        ['P', 'h', 'o', 't', 'o', ' ', 'S', 'e', 't'],
        ('A' ≤ c ∧ c ≤ 'Z') ∨ ('a' ≤ c ∧ c ≤ 'z') ∨ ('0' ≤ c ∧ c ≤ '9') ∨
          c = '_' ∨ c = '-') ∧
    (sanitize_filename_pfx
        ['P', 'h', 'o', 't', 'o', ' ', 'S', 'e', 't']).length ≤ 50 ∧
    (∀ c, (sanitize_filename_pfx
        ['P', 'h', 'o', 't', 'o', ' ', 'S', 'e', 't']).head? = some c →
      c ≠ '_') :=
  sanitize_filename_pfx_props
    ['P', 'h', 'o', 't', 'o', ' ', 'S', 'e', 't'] (by decide)

/-- **C8 counterexample.** The claim "the output has no trailing
underscore" is false: on the 51-character input of 49 `a`s, a space and a
final `a`, the strip happens before the 50-character truncation, and the
truncation cuts exactly after the underscore that replaced the space. -/
theorem sanitize_filename_pfx_trailing_underscore :
    (sanitize_filename_pfx
        (List.replicate 49 'a' ++ [' ', 'a'])).getLast? = some '_' := by
  decide

/-! ## packages/snapflow/discovery/__main__.py — the bracketing engine

A file-metadata record carries a display name, a logical identifier and the
parsed capture timestamp.  The source stores `date_taken` as an ISO-8601
string, sorts records by that string and compares gaps after parsing it with
`datetime.fromisoformat`; since all records share the date format, the
lexicographic order on the strings coincides with the order of the parsed
timestamps, and the timestamp is modelled directly as seconds (`Int`). -/

structure FileMeta where
  name : String
  path_lower : String
  date_taken : Int
deriving DecidableEq, Repr

/-- `_detect_dji_file` from `discovery/__main__.py`:
`filename.upper().startswith('DJI_') and filename.lower().endswith('.dng')`,
computed on the character list (ASCII case mapping; DJI names are ASCII). -/
def _detect_dji_file (filename : String) : Bool :=
  "DJI_".toList.isPrefixOf (filename.toList.map pyUpper) &&
  ".dng".toList.isSuffixOf (filename.toList.map pyLower)

/-- The `time_delta_seconds` argument: absent (`None`), a numeric value, or
a value on which `float()` raises (`ValueError`/`TypeError`).  The numeric
case is modelled with integer seconds (every value the claims mention is
integral). -/
inductive TimeDeltaArg
  | absent
  | numeric (v : Int)
  | nonNumeric
deriving DecidableEq, Repr

def DEFAULT_TIME_DELTA_SECONDS : Int := 2

/-- `_get_time_delta_with_dji_override` from `discovery/__main__.py`:
default the requested delta to 2 when absent or non-numeric, then override
to 10 when the DJI ratio exceeds one half.  `dji_ratio > 0.5` (with ratio 0
for an empty list) is expressed integrally as `2 * dji_count > total`. -/
def _get_time_delta_with_dji_override (time_delta_seconds : TimeDeltaArg)
    (metadata_files : List FileMeta) : Int :=
  let requested_seconds : Int :=
    match time_delta_seconds with
    | .absent => DEFAULT_TIME_DELTA_SECONDS
    | .numeric v => v
    | .nonNumeric => DEFAULT_TIME_DELTA_SECONDS
  let dji_count := (metadata_files.filter fun f => _detect_dji_file f.name).length
  let total_files := metadata_files.length
  if 2 * dji_count > total_files then 10 else requested_seconds

/-- The projection `{'name': f['name'], 'path_lower': f['path_lower']}`
applied to each member when a bracket is emitted. -/
structure BracketEntry where
  name : String
  path_lower : String
deriving DecidableEq, Repr

def bracketOutput (l : List FileMeta) : List BracketEntry :=
  l.map fun f => ⟨f.name, f.path_lower⟩

/-- Sort key of `sorted(files, key=lambda f: f['date_taken'])`. -/
def byDate (a b : FileMeta) : Prop := a.date_taken ≤ b.date_taken

instance : DecidableRel byDate := fun a b => Int.decLe a.date_taken b.date_taken

/-- The walk of `_group_files_by_bracket`'s `for` loop: `current` is the
bracket being grown; a record within `time_delta` of the **last member** of
`current` is appended, otherwise the bracket is closed (projected through
`bracketOutput`) and a new one starts; the final non-empty bracket is
appended after the loop. -/
def groupWalk (time_delta : Int) :
    List FileMeta → List FileMeta → List (List BracketEntry)
  | current, [] => if current = [] then [] else [bracketOutput current]
  | [], f :: rest => groupWalk time_delta [f] rest
  | c :: cs, f :: rest =>
    let last_time := ((c :: cs).getLast (by simp)).date_taken
    if f.date_taken - last_time ≤ time_delta then
      groupWalk time_delta (c :: cs ++ [f]) rest
    else
      bracketOutput (c :: cs) :: groupWalk time_delta [f] rest

/-- `_group_files_by_bracket` from `discovery/__main__.py`: return `[]` for
an empty input, otherwise sort by capture timestamp and walk. -/
def _group_files_by_bracket (files : List FileMeta) (time_delta : Int) :
    List (List BracketEntry) :=
  if files = [] then []
  else groupWalk time_delta [] (files.insertionSort byDate)

/-! ### Lemmas about the bracketing walk -/

theorem bracketOutput_append (l₁ l₂ : List FileMeta) :
    bracketOutput (l₁ ++ l₂) = bracketOutput l₁ ++ bracketOutput l₂ :=
  List.map_append _ l₁ l₂

theorem groupWalk_nil_nil (δ : Int) : groupWalk δ [] [] = [] := rfl

theorem groupWalk_cons_nil (δ : Int) (c : FileMeta) (cs : List FileMeta) :
    groupWalk δ (c :: cs) [] = [bracketOutput (c :: cs)] := rfl

theorem groupWalk_nil_cons (δ : Int) (f : FileMeta) (rest : List FileMeta) :
    groupWalk δ [] (f :: rest) = groupWalk δ [f] rest := rfl

theorem groupWalk_cons_cons (δ : Int) (c f : FileMeta) (cs rest : List FileMeta) :
    groupWalk δ (c :: cs) (f :: rest) =
      (if f.date_taken - ((c :: cs).getLast (by simp)).date_taken ≤ δ then
        groupWalk δ (c :: cs ++ [f]) rest
      else
        bracketOutput (c :: cs) :: groupWalk δ [f] rest) := rfl

theorem groupWalk_join (δ : Int) :
    ∀ (rest current : List FileMeta),
      (groupWalk δ current rest).flatten =
        bracketOutput current ++ bracketOutput rest := by
  intro rest
  induction rest with
  | nil =>
    intro current
    rcases current with _ | ⟨c, cs⟩
    · rw [groupWalk_nil_nil]
      simp [bracketOutput]
    · rw [groupWalk_cons_nil]
      simp [bracketOutput]
  | cons f rest ih =>
    intro current
    match current with
    | [] =>
      rw [groupWalk_nil_cons, ih]
      simp [bracketOutput]
    | c :: cs =>
      rw [groupWalk_cons_cons]
      by_cases hgap : f.date_taken - ((c :: cs).getLast (by simp)).date_taken ≤ δ
      · rw [if_pos hgap, ih]
        rw [show c :: cs ++ [f] = (c :: cs) ++ [f] from rfl, bracketOutput_append]
        simp [bracketOutput]
      · rw [if_neg hgap]
        rw [List.flatten_cons, ih]
        simp [bracketOutput]

theorem groupWalk_ne_nil (δ : Int) :
    ∀ (rest current : List FileMeta), ∀ b ∈ groupWalk δ current rest, b ≠ [] := by
  intro rest
  induction rest with
  | nil =>
    intro current b hb
    rcases current with _ | ⟨c, cs⟩
    · rw [groupWalk_nil_nil] at hb
      cases hb
    · rw [groupWalk_cons_nil] at hb
      rcases List.mem_singleton.mp hb with rfl
      simp [bracketOutput]
  | cons f rest ih =>
    intro current b hb
    match current with
    | [] => exact ih [f] b hb
    | c :: cs =>
      rw [groupWalk_cons_cons] at hb
      by_cases hgap : f.date_taken - ((c :: cs).getLast (by simp)).date_taken ≤ δ
      · rw [if_pos hgap] at hb
        exact ih _ b hb
      · rw [if_neg hgap] at hb
        rcases List.mem_cons.mp hb with rfl | hb'
        · simp [bracketOutput]
        · exact ih [f] b hb'

/-- The grouping consumes exactly the sorted input: the concatenation of the
emitted brackets is the projection of the records sorted by capture time. -/
theorem group_join (files : List FileMeta) (δ : Int) :
    (_group_files_by_bracket files δ).flatten =
      bracketOutput (files.insertionSort byDate) := by
  by_cases h : files = []
  · subst h
    simp [_group_files_by_bracket, bracketOutput, List.insertionSort]
  · rw [_group_files_by_bracket, if_neg h, groupWalk_join]
    simp [bracketOutput]

/-- **C3.** The bracketing engine sorts records ascending by capture
timestamp and walks them, comparing each record's gap to the **last member**
of the current bracket: a gap within the delta appends, a larger gap closes
the bracket and starts a new one.  First conjunct: the walk partitions the
sorted record list (no record lost, duplicated or reordered).  Second
conjunct: the literal scenario with capture times `T, T+1, T+3, T+4, T+20`
and delta 2 yields exactly the two brackets `[T, T+1, T+3, T+4]` and
`[T+20]` — which in particular distinguishes last-member gap comparison
(the `T+3` record is 3 s after the bracket's first member but only 2 s
after its last). -/
theorem bracketing_sorts_and_walks :
    (∀ (files : List FileMeta) (δ : Int),
      (_group_files_by_bracket files δ).flatten =
        bracketOutput (files.insertionSort byDate)) ∧
    _group_files_by_bracket
        [⟨"f1", "/p/f1", 0⟩, ⟨"f2", "/p/f2", 1⟩, ⟨"f3", "/p/f3", 3⟩,
         ⟨"f4", "/p/f4", 4⟩, ⟨"f5", "/p/f5", 20⟩] 2 =
      [[⟨"f1", "/p/f1"⟩, ⟨"f2", "/p/f2"⟩, ⟨"f3", "/p/f3"⟩, ⟨"f4", "/p/f4"⟩],
       [⟨"f5", "/p/f5"⟩]] :=
  ⟨group_join, by decide⟩

/-- **C6.** Every emitted bracket is non-empty, and the bracket sizes sum
to the number of input records (each record with a parseable timestamp —
in the model, every record — lands in exactly one bracket). -/
theorem bracketing_partition (files : List FileMeta) (δ : Int) :
    (∀ b ∈ _group_files_by_bracket files δ, b ≠ []) ∧
    ((_group_files_by_bracket files δ).map List.length).sum = files.length := by
  constructor
  · intro b hb
    by_cases h : files = []
    · rw [_group_files_by_bracket, if_pos h] at hb
      cases hb
    · rw [_group_files_by_bracket, if_neg h] at hb
      exact groupWalk_ne_nil δ _ [] b hb
  · rw [← List.length_flatten, group_join, bracketOutput, List.length_map,
      (List.perm_insertionSort byDate files).length_eq]

/-- **C4.** If strictly more than half of the records match the DJI
pattern, the effective time delta is 10 regardless of the requested value;
otherwise it is the caller's value, defaulting to 2 when the argument is
absent or not convertible to a number (in particular, at exactly half no
override occurs). -/
theorem time_delta_dji_override (tds : TimeDeltaArg) (files : List FileMeta) :
    (2 * (files.filter fun f => _detect_dji_file f.name).length > files.length →
      _get_time_delta_with_dji_override tds files = 10) ∧
    (2 * (files.filter fun f => _detect_dji_file f.name).length ≤ files.length →
      _get_time_delta_with_dji_override tds files =
        match tds with
        | .numeric v => v
        | .absent => 2
        | .nonNumeric => 2) := by
  constructor
  · intro h
    rw [_get_time_delta_with_dji_override.eq_def]
    simp only [if_pos h]
  · intro h
    rw [_get_time_delta_with_dji_override.eq_def]
    simp only [if_neg (Nat.not_lt.mpr h)]
    cases tds <;> rfl

/-- Witness for `time_delta_dji_override`: with 3 DJI records out of 4 the
requested value 99 is overridden to 10; with 2 DJI records out of 4
(exactly half) the requested value 7 is kept. -/
theorem time_delta_dji_override_witness :
    _get_time_delta_with_dji_override (.numeric 99)
        [⟨"DJI_0001.dng", "/p/1", 0⟩, ⟨"DJI_0002.dng", "/p/2", 1⟩,
         ⟨"DJI_0003.dng", "/p/3", 2⟩, ⟨"IMG_4.jpg", "/p/4", 3⟩] = 10 ∧
    _get_time_delta_with_dji_override (.numeric 7)
        [⟨"DJI_0001.dng", "/p/1", 0⟩, ⟨"DJI_0002.dng", "/p/2", 1⟩,
         ⟨"IMG_3.jpg", "/p/3", 2⟩, ⟨"IMG_4.jpg", "/p/4", 3⟩] = 7 :=
  ⟨(time_delta_dji_override (.numeric 99) _).1 (by decide),
   (time_delta_dji_override (.numeric 7) _).2 (by decide)⟩

/-! ## lib/shared/notifications/webhook_notifier.py -/

/-- `NotificationLevel` enum. -/
inductive NotificationLevel
  | errors_only
  | minimal
  | standard
  | verbose
deriving DecidableEq, Repr

/-- `WebhookNotifier.CRITICAL_NOTIFICATIONS` — always sent regardless of level. -/
def CRITICAL_NOTIFICATIONS : List String :=
  ["job_failed", "job_completed", "job_partial_success", "job_started",
   "dispatch_failed", "process_completed_success", "finalize_processing_started",
   "dropbox_connection_failed", "enhancement_request_success",
   "google_drive_connection_failed"]

/-- `WebhookNotifier.MINIMAL_ALLOWED` — extra events allowed at `minimal`. -/
def MINIMAL_ALLOWED : List String :=
  ["process_started_detailed", "dropbox_connected_success",
   "google_drive_connected_success", "bracket_processing_started",
   "process_completed_success"]

/-- `WebhookNotifier.VERBOSE_ONLY` — suppressed below `verbose`. -/
def VERBOSE_ONLY : List String :=
  ["status_checked", "upload_attempt_details", "upload_result_details",
   "dropbox_token_refresh_attempt", "finalize_call_attempt", "retry_attempt"]

/-- `WebhookNotifier._should_send` from `webhook_notifier.py`: ERROR level
always sends; critical names always send; then the configured verbosity
level decides. -/
def _should_send (notification_level : NotificationLevel)
    (status log_level : String) : Bool :=
  if log_level = "ERROR" then true
  else if status ∈ CRITICAL_NOTIFICATIONS then true
  else if notification_level = .errors_only then false
  else if notification_level = .minimal then status ∈ MINIMAL_ALLOWED
  else if notification_level = .standard then status ∉ VERBOSE_ONLY
  else true

/-- The notifier state relevant to delivery decisions (`callback_webhook`
may be `None`; a present empty string is also falsy in Python). -/
structure WebhookNotifier where
  callback_webhook : Option String
  notification_level : NotificationLevel

/-- Whether `send_debug` reaches its POST: it returns `False` without
posting when `callback_webhook` is falsy or `_should_send` declines. -/
def send_debug_posts (n : WebhookNotifier) (status log_level : String) : Bool :=
  match n.callback_webhook with
  | none => false
  | some cb =>
    if cb = "" then false
    else _should_send n.notification_level status log_level

/-- Whether `send_business` reaches its POST: only the webhook's truthiness
is consulted — `_should_send` (and hence the level) is never called.
`send_job_result` posts through `send_business` unchanged. -/
def send_business_posts (n : WebhookNotifier) : Bool :=
  match n.callback_webhook with
  | none => false
  | some cb => cb ≠ ""

/-- **C7.** Delivery policy of the webhook notifier: ERROR severity always
delivers; critical event names always deliver; otherwise `errors_only`
delivers nothing, `minimal` delivers exactly the minimal whitelist,
`standard` delivers everything except the verbose-only set, `verbose`
delivers everything; and business-class (`send_job_result`) notifications
are posted without any level filtering. -/
theorem notifier_delivery_policy (status log_level : String) :
    (∀ lvl : NotificationLevel, log_level = "ERROR" →
      _should_send lvl status log_level = true) ∧
    (∀ lvl : NotificationLevel, status ∈ CRITICAL_NOTIFICATIONS →
      _should_send lvl status log_level = true) ∧
    (log_level ≠ "ERROR" → status ∉ CRITICAL_NOTIFICATIONS →
      _should_send .errors_only status log_level = false ∧
      (_should_send .minimal status log_level = true ↔ status ∈ MINIMAL_ALLOWED) ∧
      (_should_send .standard status log_level = true ↔ status ∉ VERBOSE_ONLY) ∧
      _should_send .verbose status log_level = true) ∧
    (∀ (cb : Option String) (l₁ l₂ : NotificationLevel),
      send_business_posts ⟨cb, l₁⟩ = send_business_posts ⟨cb, l₂⟩) := by
  refine ⟨?_, ?_, ?_, ?_⟩
  · intro lvl h
    rw [_should_send, if_pos h]
  · intro lvl h
    rw [_should_send]
    by_cases he : log_level = "ERROR"
    · rw [if_pos he]
    · rw [if_neg he, if_pos h]
  · intro he hc
    rw [show _should_send .errors_only status log_level =
        (if log_level = "ERROR" then true
         else if status ∈ CRITICAL_NOTIFICATIONS then true
         else false) from rfl,
      show _should_send .minimal status log_level =
        (if log_level = "ERROR" then true
         else if status ∈ CRITICAL_NOTIFICATIONS then true
         else decide (status ∈ MINIMAL_ALLOWED)) from rfl,
      show _should_send .standard status log_level =
        (if log_level = "ERROR" then true
         else if status ∈ CRITICAL_NOTIFICATIONS then true
         else decide (status ∉ VERBOSE_ONLY)) from rfl,
      show _should_send .verbose status log_level =
        (if log_level = "ERROR" then true
         else if status ∈ CRITICAL_NOTIFICATIONS then true
         else true) from rfl]
    rw [if_neg he, if_neg hc, if_neg he, if_neg hc, if_neg he, if_neg hc,
      if_neg he, if_neg hc]
    refine ⟨rfl, ?_, ?_, rfl⟩
    · simp
    · simp
  · intro cb l₁ l₂
    rcases cb with _ | s <;> rfl

/-- Witness for `notifier_delivery_policy` at concrete inputs: the
verbose-only event `status_checked` at `INFO` is suppressed at `minimal`
and delivered at `verbose`; the critical event `job_failed` is delivered
even at `errors_only`. -/
theorem notifier_delivery_policy_witness :
    _should_send .verbose "status_checked" "INFO" = true ∧
    _should_send .minimal "status_checked" "INFO" ≠ true ∧
    _should_send .errors_only "job_failed" "INFO" = true := by
  refine ⟨((notifier_delivery_policy "status_checked" "INFO").2.2.1
      (by decide) (by decide)).2.2.2, ?_, ?_⟩
  · intro h
    have := ((notifier_delivery_policy "status_checked" "INFO").2.2.1
      (by decide) (by decide)).2.1.mp h
    revert this
    decide
  · exact (notifier_delivery_policy "job_failed" "INFO").2.1 .errors_only (by decide)

/-! ## packages/snapflow/finalize/__main__.py

The status dictionary returned by an enhancement provider's status call
(`.get` access is modelled by `Option` fields), the provider object with
its Python attribute table, and the retry loop of `main`.  Network
behaviour (status responses, result downloads, destination uploads) is a
parameter of the embedding, indexed by the pass number so responses may
change between passes. -/

structure StatusDict where
  status : Option String
  enhanced_image_url : Option String
  error : Option String
deriving DecidableEq, Repr

/-- A Python object as the finalize stage sees it: attribute lookup that
may fail (`AttributeError`).  Only status-method attributes are modelled;
an attribute maps a pass number and an enhancement id to a status
dictionary or a raised exception (`Except.error`). -/
structure EnhancementProviderObj where
  attrs : String → Option (Nat → String → Except String StatusDict)

/-- Attribute table of the provider objects `EnhancementFactory.create`
returns in finalize.  `FotelloProvider` and `AutoHDRProvider` (including
the inherited `BaseEnhancementProvider` methods) define `upload_image`,
`request_enhancement`, `check_status`, `get_provider_type`,
`get_provider_name`, `get_result_url`, `download_result`,
`is_status_final`, `normalize_status`, `upload_bracket` (and a few
AutoHDR-specific helpers) — no class in the repository defines
`get_enhancement_status`.  Only the one attribute that returns a status
dictionary is listed; `net` is its network behaviour. -/
def providerAttrs (net : Nat → String → Except String StatusDict) :
    String → Option (Nat → String → Except String StatusDict) :=
  fun name => if name = "check_status" then some net else none

/-- A Python method call `provider.<name>(enhancement_id)`: attribute
lookup raises `AttributeError` when the object has no such attribute. -/
def callStatusMethod (p : EnhancementProviderObj) (name : String) (k : Nat)
    (enhancement_id : String) : Except String StatusDict :=
  match p.attrs name with
  | none => .error ("AttributeError: object has no attribute " ++ name)
  | some f => f k enhancement_id

/-- One entry of the `enhancement_ids` list (already in object form). -/
structure EnhInfo where
  enhancement_id : String
  bracket_index : Nat
deriving DecidableEq, Repr

inductive StorageKind
  | dropbox
  | google_drive
deriving DecidableEq, Repr

/-- Network behaviour of one finalize invocation: the enhancement provider
object, `_download_file_from_url` (returns the byte count of the body, or
raises) and `storage.upload_file` — each indexed by the pass number. -/
structure FinalizeWorld where
  provider : EnhancementProviderObj
  download : Nat → String → Except String Nat
  upload : Nat → String → Nat → Except String Unit

/-- The per-enhancement result dictionary built by `_process_enhancement`.
`file_size_mb` is carried as the raw byte count (the source stores
megabytes rounded to two decimals; no claim depends on the value). -/
structure ResultRec where
  enhancement_id : String
  bracket_index : Nat
  status : String
  storage_path : Option String := none
  file_size_mb : Option Nat := none
  error : Option String := none
  retry_needed : Bool := false
deriving DecidableEq, Repr

/-- Finalize inputs that stay fixed across passes. -/
structure FinalizeConfig where
  storage : StorageKind
  listing_id : String
  destination_folder : String
  filename_prefix : Option String
deriving Repr

/-- Python truthiness of an optional string (`None` and `''` are falsy). -/
def pyTruthyStr : Option String → Bool
  | none => false
  | some s => s ≠ ""

/-- Python `str.strip()` on the character list (ASCII whitespace). -/
def stripWs (l : List Char) : List Char :=
  ((l.dropWhile isPySpace).reverse.dropWhile isPySpace).reverse

/-- `_process_enhancement` from `finalize/__main__.py`.  The source calls
`enhancement_provider.get_enhancement_status(enhancement_id)`; the
surrounding `try` turns any exception — including the `AttributeError`
this raises on the factory's provider objects — into an `api_error`
record.  A `completed` status with a truthy URL downloads and uploads
(failures become `download_failed`); `in_progress`/`processing` marks the
ticket `retry_needed`; `failed` records the provider error; anything else
is `unknown_status`. -/
def _process_enhancement (w : FinalizeWorld) (cfg : FinalizeConfig) (k : Nat)
    (info : EnhInfo) : ResultRec :=
  match callStatusMethod w.provider "get_enhancement_status" k info.enhancement_id with
  | .error e =>
    { enhancement_id := info.enhancement_id, bracket_index := info.bracket_index,
      status := "api_error", error := some e }
  | .ok status_result =>
    let status := status_result.status.getD "unknown"
    if status = "completed" then
      if pyTruthyStr status_result.enhanced_image_url then
        let url := status_result.enhanced_image_url.getD ""
        match w.download k url with
        | .error e =>
          { enhancement_id := info.enhancement_id, bracket_index := info.bracket_index,
            status := "download_failed", error := some e }
        | .ok enhanced_bytes =>
          let prefix_to_use :=
            match cfg.filename_prefix with
            | none => cfg.listing_id
            | some fp =>
              if fp ≠ "" ∧ stripWs fp.toList ≠ [] then
                let sanitized := sanitize_filename_pfx fp.toList
                if sanitized ≠ [] then String.mk sanitized else cfg.listing_id
              else cfg.listing_id
          let enhanced_filename :=
            toString (info.bracket_index + 1) ++ "_" ++ prefix_to_use ++ ".jpg"
          let dest_path :=
            match cfg.storage with
            | .google_drive => cfg.destination_folder ++ "/" ++ enhanced_filename
            | .dropbox =>
              let d := cfg.destination_folder ++ "/" ++ enhanced_filename
              if d.toList.head? = some '/' then d else "/" ++ d
          match w.upload k dest_path enhanced_bytes with
          | .error e =>
            { enhancement_id := info.enhancement_id, bracket_index := info.bracket_index,
              status := "download_failed", error := some e }
          | .ok _ =>
            { enhancement_id := info.enhancement_id, bracket_index := info.bracket_index,
              status := "uploaded", storage_path := some dest_path,
              file_size_mb := some enhanced_bytes }
      else
        { enhancement_id := info.enhancement_id, bracket_index := info.bracket_index,
          status := "completed_no_url", error := some "No enhanced_image_url in response" }
    else if status = "in_progress" ∨ status = "processing" then
      { enhancement_id := info.enhancement_id, bracket_index := info.bracket_index,
        status := "in_progress", retry_needed := true }
    else if status = "failed" then
      { enhancement_id := info.enhancement_id, bracket_index := info.bracket_index,
        status := "failed", error := some (status_result.error.getD "Enhancement failed") }
    else
      { enhancement_id := info.enhancement_id, bracket_index := info.bracket_index,
        status := "unknown_status", error := some ("Unknown status: " ++ status) }

/-- Retry configuration of `finalize/__main__.py`. -/
def MAX_RETRIES : Nat := 3

/-- One pass of the `while` loop: process each pending ticket in order;
tickets whose result carries `retry_needed` stay pending, the others'
results are appended to the completed list. -/
def runPass (w : FinalizeWorld) (cfg : FinalizeConfig) (k : Nat) :
    List EnhInfo → List ResultRec × List EnhInfo
  | [] => ([], [])
  | info :: rest =>
    let r := _process_enhancement w cfg k info
    let (cs, ps) := runPass w cfg k rest
    if r.retry_needed then (cs, info :: ps) else (r :: cs, ps)

/-- The `while pending_retries and retry_count <= MAX_RETRIES` loop.
`fuel` is an upper bound on the remaining iterations; called with
`MAX_RETRIES + 1` and `retry_count = 0` the guard always exits before the
fuel does, so the function is the loop.  Returns the completed results,
the tickets still pending, and the final `retry_count`. -/
def finalizeLoop (w : FinalizeWorld) (cfg : FinalizeConfig) :
    Nat → List EnhInfo → List ResultRec → Nat →
      List ResultRec × List EnhInfo × Nat
  | 0, pending, completed, retry_count => (completed, pending, retry_count)
  | fuel + 1, pending, completed, retry_count =>
    if pending = [] ∨ MAX_RETRIES < retry_count then (completed, pending, retry_count)
    else
      let (cs, ps) := runPass w cfg retry_count pending
      finalizeLoop w cfg fuel ps (completed ++ cs) (retry_count + 1)

/-- The timeout record appended for each ticket still pending after the
loop. -/
def timeoutRec (info : EnhInfo) : ResultRec :=
  { enhancement_id := info.enhancement_id, bracket_index := info.bracket_index,
    status := "timeout",
    error := some ("Enhancement still in progress after " ++ toString MAX_RETRIES
      ++ " retry attempts") }

/-- The retry section of `main`: run the loop from `retry_count = 0`, then
record every remaining pending ticket as a timeout.  Returns the full
`completed_enhancements` list and the final `retry_count`. -/
def runFinalizeCompleted (w : FinalizeWorld) (cfg : FinalizeConfig)
    (enhancement_ids : List EnhInfo) : List ResultRec × Nat :=
  let r := finalizeLoop w cfg (MAX_RETRIES + 1) enhancement_ids [] 0
  (r.1 ++ r.2.1.map timeoutRec, r.2.2)

structure EnhancedImage where
  bracket_index : Nat
  storage_path : String
  file_size_mb : Nat
deriving DecidableEq, Repr

structure FailedBracket where
  bracket_index : Nat
  error : String
deriving DecidableEq, Repr

/-- The aggregate fields of `_create_standardized_job_result` that the
claims consume (the pass-through metadata — job id, listing id, bracket
totals, timestamp, version, correlation id — is omitted). -/
structure JobResult where
  status : String
  successful_enhancements : Nat
  failed_enhancements : Nat
  enhanced_images : List EnhancedImage
  failed_brackets : List FailedBracket
  retry_attempts : Nat
deriving DecidableEq, Repr

/-- `_create_standardized_job_result` from `finalize/__main__.py`:
partition the per-ticket results on `status == 'uploaded'`, derive the job
status, and build the image/failure arrays. -/
def _create_standardized_job_result (completed_enhancements : List ResultRec)
    (retry_count : Nat) : JobResult :=
  let successful_uploads := completed_enhancements.filter fun r => r.status = "uploaded"
  let failed_results := completed_enhancements.filter fun r => ¬(r.status = "uploaded")
  let job_status :=
    if successful_uploads ≠ [] ∧ failed_results = [] then "job_completed"
    else if successful_uploads ≠ [] ∧ failed_results ≠ [] then "job_partial_success"
    else "job_failed"
  let enhanced_images := successful_uploads.filterMap fun r =>
    match r.storage_path, r.file_size_mb with
    | some p, some m => some ⟨r.bracket_index, p, m⟩
    | _, _ => none
  let failed_brackets := failed_results.map fun r =>
    (⟨r.bracket_index, r.error.getD "Unknown error"⟩ : FailedBracket)
  { status := job_status,
    successful_enhancements := successful_uploads.length,
    failed_enhancements := failed_results.length,
    enhanced_images := enhanced_images,
    failed_brackets := failed_brackets,
    retry_attempts := retry_count }

/-- The whole retry-and-report section of finalize `main`. -/
def runFinalize (w : FinalizeWorld) (cfg : FinalizeConfig)
    (enhancement_ids : List EnhInfo) : JobResult :=
  let r := runFinalizeCompleted w cfg enhancement_ids
  _create_standardized_job_result r.1 r.2

/-! ### Lemmas about the finalize retry loop -/

/-- The identifying pair of a per-ticket result. -/
def keyR (r : ResultRec) : String × Nat := (r.enhancement_id, r.bracket_index)

/-- The identifying pair of an input ticket. -/
def keyI (i : EnhInfo) : String × Nat := (i.enhancement_id, i.bracket_index)

theorem process_id (w : FinalizeWorld) (cfg : FinalizeConfig) (k : Nat)
    (info : EnhInfo) : keyR (_process_enhancement w cfg k info) = keyI info := by
  unfold _process_enhancement
  cases callStatusMethod w.provider "get_enhancement_status" k info.enhancement_id with
  | error e => rfl
  | ok sd =>
    simp only []
    split
    · split
      · cases w.download k (sd.enhanced_image_url.getD "") with
        | error e => rfl
        | ok n =>
          simp only []
          split
          · rfl
          · rfl
      · rfl
    · split
      · rfl
      · split
        · rfl
        · rfl

theorem runPass_cons (w : FinalizeWorld) (cfg : FinalizeConfig) (k : Nat)
    (info : EnhInfo) (rest : List EnhInfo) :
    runPass w cfg k (info :: rest) =
      (if (_process_enhancement w cfg k info).retry_needed then
        ((runPass w cfg k rest).1, info :: (runPass w cfg k rest).2)
      else
        (_process_enhancement w cfg k info :: (runPass w cfg k rest).1,
          (runPass w cfg k rest).2)) := rfl

theorem runPass_perm (w : FinalizeWorld) (cfg : FinalizeConfig) (k : Nat) :
    ∀ l : List EnhInfo,
      ((runPass w cfg k l).1.map keyR ++ (runPass w cfg k l).2.map keyI).Perm
        (l.map keyI) := by
  intro l
  induction l with
  | nil => simp [runPass]
  | cons info rest ih =>
    rw [runPass_cons]
    by_cases hr : (_process_enhancement w cfg k info).retry_needed
    · rw [if_pos hr]
      simp only [List.map_cons]
      refine List.Perm.trans List.perm_middle ?_
      exact ih.cons (keyI info)
    · rw [if_neg hr]
      simp only [List.map_cons, List.cons_append]
      rw [process_id]
      exact ih.cons (keyI info)

theorem finalizeLoop_succ (w : FinalizeWorld) (cfg : FinalizeConfig)
    (fuel : Nat) (pending : List EnhInfo) (completed : List ResultRec)
    (rc : Nat) :
    finalizeLoop w cfg (fuel + 1) pending completed rc =
      (if pending = [] ∨ MAX_RETRIES < rc then (completed, pending, rc)
      else finalizeLoop w cfg fuel (runPass w cfg rc pending).2
        (completed ++ (runPass w cfg rc pending).1) (rc + 1)) := rfl

theorem finalizeLoop_spec (w : FinalizeWorld) (cfg : FinalizeConfig) :
    ∀ (fuel : Nat) (pending : List EnhInfo) (completed : List ResultRec)
      (rc : Nat),
      (((finalizeLoop w cfg fuel pending completed rc).1.map keyR ++
        (finalizeLoop w cfg fuel pending completed rc).2.1.map keyI).Perm
        (completed.map keyR ++ pending.map keyI)) ∧
      (finalizeLoop w cfg fuel pending completed rc).2.2 ≤ rc + fuel := by
  intro fuel
  induction fuel with
  | zero =>
    intro pending completed rc
    exact ⟨List.Perm.refl _, Nat.le_refl _⟩
  | succ fuel ih =>
    intro pending completed rc
    rw [finalizeLoop_succ]
    by_cases hg : pending = [] ∨ MAX_RETRIES < rc
    · rw [if_pos hg]
      exact ⟨List.Perm.refl _, by show rc ≤ rc + (fuel + 1); omega⟩
    · rw [if_neg hg]
      obtain ⟨hperm, hrc⟩ := ih (runPass w cfg rc pending).2
        (completed ++ (runPass w cfg rc pending).1) (rc + 1)
      refine ⟨hperm.trans ?_, by omega⟩
      rw [List.map_append, List.append_assoc]
      exact List.Perm.append_left _ (runPass_perm w cfg rc pending)

/-- **C5.** The finalize polling loop terminates with at most
`MAX_RETRIES + 1 = 4` passes recorded in `retry_count`; every input ticket
receives exactly one recorded outcome (the identifying pairs of the final
`completed_enhancements` list are a permutation of the input tickets,
leftover pending tickets having been recorded as `'timeout'` by
`timeoutRec`); consequently the aggregated callback's
`successful_enhancements + failed_enhancements` equals the number of input
tickets. -/
theorem finalize_bounded_and_accounted (w : FinalizeWorld)
    (cfg : FinalizeConfig) (ids : List EnhInfo) :
    (runFinalizeCompleted w cfg ids).2 ≤ MAX_RETRIES + 1 ∧
    ((runFinalizeCompleted w cfg ids).1.map keyR).Perm (ids.map keyI) ∧
    (runFinalize w cfg ids).successful_enhancements +
      (runFinalize w cfg ids).failed_enhancements = ids.length := by
  obtain ⟨hperm, hrc⟩ := finalizeLoop_spec w cfg (MAX_RETRIES + 1) ids [] 0
  have hmapto : ((finalizeLoop w cfg (MAX_RETRIES + 1) ids [] 0).2.1.map
      timeoutRec).map keyR =
      (finalizeLoop w cfg (MAX_RETRIES + 1) ids [] 0).2.1.map keyI := by
    rw [List.map_map]
    rfl
  have hkey : ((runFinalizeCompleted w cfg ids).1.map keyR).Perm (ids.map keyI) := by
    show (((finalizeLoop w cfg (MAX_RETRIES + 1) ids [] 0).1 ++
      (finalizeLoop w cfg (MAX_RETRIES + 1) ids [] 0).2.1.map timeoutRec).map
        keyR).Perm (ids.map keyI)
    rw [List.map_append, hmapto]
    simpa using hperm
  refine ⟨by simpa using hrc, hkey, ?_⟩
  have hlen : (runFinalizeCompleted w cfg ids).1.length = ids.length := by
    have := hkey.length_eq
    simpa using this
  show ((runFinalizeCompleted w cfg ids).1.filter
      fun r => r.status = "uploaded").length +
    ((runFinalizeCompleted w cfg ids).1.filter
      fun r => ¬(r.status = "uploaded")).length = ids.length
  rw [← hlen]
  conv_rhs => rw [@List.length_eq_length_filter_add ResultRec
    (runFinalizeCompleted w cfg ids).1 fun r => decide (r.status = "uploaded")]
  congr 2
  apply List.filter_congr
  intro r _
  simp

/-! ### The literal finalize scenario (three tickets) -/

/-- Network status behaviour of the literal scenario: ticket-1 reports
`completed` with a result URL, ticket-2 reports `failed`, ticket-3 stays
`in_progress` on every pass. -/
def c1Net : Nat → String → Except String StatusDict := fun _ eid =>
  if eid = "ticket-1" then
    .ok ⟨some "completed", some "https://cdn.example/r1.jpg", none⟩
  else if eid = "ticket-2" then
    .ok ⟨some "failed", none, some "enhancement failed"⟩
  else
    .ok ⟨some "in_progress", none, none⟩

/-- The provider object the finalize factory actually builds (attribute
table of the repository's provider classes) over `c1Net`, with result
downloads and destination uploads that succeed. -/
def c1World : FinalizeWorld :=
  { provider := ⟨providerAttrs c1Net⟩,
    download := fun _ _ => .ok 1048576,
    upload := fun _ _ _ => .ok () }

/-- A hypothetical provider object that additionally binds the status
contract of `BaseEnhancementProvider.check_status` under the attribute
name finalize invokes — the behaviour the spec describes. -/
def c1WorldIntended : FinalizeWorld :=
  { provider := ⟨fun name =>
      if name = "get_enhancement_status" ∨ name = "check_status" then some c1Net
      else none⟩,
    download := fun _ _ => .ok 1048576,
    upload := fun _ _ _ => .ok () }

def c1Cfg : FinalizeConfig := ⟨.dropbox, "listing-42", "/enhanced", none⟩

def c1Ids : List EnhInfo := [⟨"ticket-1", 0⟩, ⟨"ticket-2", 1⟩, ⟨"ticket-3", 2⟩]

/-- **C1 (code bug).** The claim describes finalize checking each ticket's
status via the provider's status method (`check_status` in
`BaseEnhancementProvider`, implemented by both providers and used by every
test), but `_process_enhancement` calls `get_enhancement_status`, which no
class in the repository defines.  At the claim's own literal scenario the
`AttributeError` is swallowed by the `try`, every ticket is recorded as
`api_error` in the first pass, and the callback carries
`successful_enhancements = 0`, `failed_enhancements = 3`,
`retry_attempts = 1` instead of the claimed 1 / 2.  Under a provider
object that binds the same status behaviour to the attribute finalize
calls, the run produces exactly the claimed callback — isolating the
divergence to the method name. -/
theorem finalize_status_method_bug :
    (∀ r ∈ (runFinalizeCompleted c1World c1Cfg c1Ids).1, r.status = "api_error") ∧
    (runFinalize c1World c1Cfg c1Ids).successful_enhancements = 0 ∧
    (runFinalize c1World c1Cfg c1Ids).failed_enhancements = 3 ∧
    (runFinalize c1World c1Cfg c1Ids).status = "job_failed" ∧
    (runFinalize c1World c1Cfg c1Ids).retry_attempts = 1 ∧
    (runFinalize c1WorldIntended c1Cfg c1Ids).successful_enhancements = 1 ∧
    (runFinalize c1WorldIntended c1Cfg c1Ids).failed_enhancements = 2 ∧
    (runFinalize c1WorldIntended c1Cfg c1Ids).status = "job_partial_success" ∧
    (runFinalize c1WorldIntended c1Cfg c1Ids).retry_attempts = 4 ∧
    (runFinalize c1WorldIntended c1Cfg c1Ids).enhanced_images =
      [⟨0, "/enhanced/1_listing-42.jpg", 1048576⟩] ∧
    (runFinalize c1WorldIntended c1Cfg c1Ids).failed_brackets =
      [⟨1, "enhancement failed"⟩,
       ⟨2, "Enhancement still in progress after 3 retry attempts"⟩] := by
  decide

/-! ## packages/snapflow/gateway/__main__.py

The parsed gateway payload (after `_parse_event_data`), with fields the
validation and dispatch decision reads.  `Option String` fields model
`data.get(...)`; Python truthiness is `pyTruthyStr`.  The contents of the
nested `storage_credentials` / `enhancement_credentials` sub-objects are
irrelevant to the gateway's validation (it never looks inside them), so
only their presence is recorded. -/

structure GatewayData where
  client_id : Option String
  listing_id : Option String
  callback_webhook : Option String
  brackets_data : List (List Unit)
  storage_provider : Option String
  enhancement_provider : Option String
  dropbox_refresh_token_encrypted : Option String
  google_drive_refresh_token_encrypted : Option String
  fotello_api_key_encrypted : Option String
  autohdr_api_key_encrypted : Option String
  dropbox_destination_folder : Option String
  google_drive_destination_folder_id : Option String
  has_storage_credentials : Bool
  has_enhancement_credentials : Bool
deriving Repr

/-- `_validate_required_fields` from `gateway/__main__.py`: the four plain
required fields, then one of the two *legacy flat* encrypted storage
fields, one of the two *legacy flat* encrypted enhancement fields, and a
destination folder.  Note the nested
`storage_credentials`/`enhancement_credentials` sub-objects are *not*
consulted. -/
def _validate_required_fields (data : GatewayData) : List String :=
  ((if ¬ pyTruthyStr data.client_id then ["client_id"] else []) ++
   (if ¬ pyTruthyStr data.listing_id then ["listing_id"] else []) ++
   (if ¬ pyTruthyStr data.callback_webhook then ["callback_webhook"] else []) ++
   (if data.brackets_data = [] then ["brackets_data"] else [])) ++
  (if ¬ pyTruthyStr data.dropbox_refresh_token_encrypted ∧
      ¬ pyTruthyStr data.google_drive_refresh_token_encrypted then
    ["storage_credentials (dropbox or google_drive)"] else []) ++
  (if ¬ pyTruthyStr data.fotello_api_key_encrypted ∧
      ¬ pyTruthyStr data.autohdr_api_key_encrypted then
    ["enhancement_credentials (fotello or autohdr)"] else []) ++
  (if ¬ pyTruthyStr data.dropbox_destination_folder ∧
      ¬ pyTruthyStr data.google_drive_destination_folder_id then
    ["destination_folder"] else [])

/-- `_detect_providers` from `gateway/__main__.py`. -/
def _detect_providers (data : GatewayData) : Option String × Option String :=
  let storage :=
    if pyTruthyStr data.storage_provider then data.storage_provider
    else if pyTruthyStr data.dropbox_refresh_token_encrypted then some "dropbox"
    else if pyTruthyStr data.google_drive_refresh_token_encrypted then
      some "google_drive"
    else none
  let enhancement :=
    if pyTruthyStr data.enhancement_provider then data.enhancement_provider
    else if pyTruthyStr data.fotello_api_key_encrypted then some "fotello"
    else if pyTruthyStr data.autohdr_api_key_encrypted then some "autohdr"
    else none
  (storage, enhancement)

/-- The decrypted field the gateway inspects after `decrypt_credentials`. -/
structure DecryptedGW where
  dropbox_app_key : Option String
deriving Repr

/-- `', '.join(missing)`. -/
def joinComma : List String → String
  | [] => ""
  | [s] => s
  | s :: rest => s ++ ", " ++ joinComma rest

/-- The gateway's response together with whether the process stage was
dispatched (the background thread is started only on the success path). -/
structure GatewayResponse where
  statusCode : Nat
  body_status : Option String
  body_error : Option String
  dispatched : Bool
deriving DecidableEq, Repr

/-- The decision structure of gateway `main` from the parsed payload on:
client-id guard, `_validate_required_fields`, provider detection,
credential decryption (outcome supplied as `decrypt`), the decrypted
dropbox app-key check, the `PROCESS_FUNCTION_URL` guard, then the async
dispatch and the immediate `202 dispatched` acknowledgement. -/
def gatewayMain (data : GatewayData) (decrypt : Except String DecryptedGW)
    (process_url : Option String) : GatewayResponse :=
  if ¬ pyTruthyStr data.client_id then
    ⟨400, none, some "client_id is required", false⟩
  else
    let missing := _validate_required_fields data
    if missing ≠ [] then
      ⟨400, none, some ("Missing required fields: " ++ joinComma missing), false⟩
    else
      match decrypt with
      | .error e =>
        ⟨400, none, some ("Credential decryption failed: " ++ e), false⟩
      | .ok decrypted =>
        if (_detect_providers data).1 = some "dropbox" ∧
            (¬ pyTruthyStr decrypted.dropbox_app_key ∨
              (stripWs (decrypted.dropbox_app_key.getD "").toList).length < 10) then
          ⟨400, none, some "Invalid decrypted dropbox_app_key format", false⟩
        else if ¬ pyTruthyStr process_url then
          ⟨500, none, some "PROCESS_FUNCTION_URL not configured", false⟩
        else
          ⟨202, some "dispatched", none, true⟩

/-- The claim's notion of "all mandatory fields present", **modelled from
the claim's wording** for comparison with the code: credentials count in
the legacy flat form *or* the nested form. -/
def claimMandatoryFields (data : GatewayData) : Prop :=
  pyTruthyStr data.client_id = true ∧ pyTruthyStr data.listing_id = true ∧
  pyTruthyStr data.callback_webhook = true ∧ data.brackets_data ≠ [] ∧
  (pyTruthyStr data.dropbox_refresh_token_encrypted = true ∨
    pyTruthyStr data.google_drive_refresh_token_encrypted = true ∨
    data.has_storage_credentials = true) ∧
  (pyTruthyStr data.fotello_api_key_encrypted = true ∨
    pyTruthyStr data.autohdr_api_key_encrypted = true ∨
    data.has_enhancement_credentials = true) ∧
  (pyTruthyStr data.dropbox_destination_folder = true ∨
    pyTruthyStr data.google_drive_destination_folder_id = true)

/-- The mandatory fields the code actually checks: credentials only in the
legacy flat encrypted form. -/
def flatMandatoryFields (data : GatewayData) : Prop :=
  pyTruthyStr data.client_id = true ∧ pyTruthyStr data.listing_id = true ∧
  pyTruthyStr data.callback_webhook = true ∧ data.brackets_data ≠ [] ∧
  (pyTruthyStr data.dropbox_refresh_token_encrypted = true ∨
    pyTruthyStr data.google_drive_refresh_token_encrypted = true) ∧
  (pyTruthyStr data.fotello_api_key_encrypted = true ∨
    pyTruthyStr data.autohdr_api_key_encrypted = true) ∧
  (pyTruthyStr data.dropbox_destination_folder = true ∨
    pyTruthyStr data.google_drive_destination_folder_id = true)

instance (data : GatewayData) : Decidable (claimMandatoryFields data) := by
  unfold claimMandatoryFields
  infer_instance

instance (data : GatewayData) : Decidable (flatMandatoryFields data) := by
  unfold flatMandatoryFields
  infer_instance

theorem validate_eq_nil_iff (data : GatewayData) :
    _validate_required_fields data = [] ↔ flatMandatoryFields data := by
  unfold _validate_required_fields flatMandatoryFields
  by_cases hbd : data.brackets_data = []
  · simp [hbd]
  · simp only [if_neg hbd, hbd, ne_eq, not_false_eq_true, true_and, and_true,
      List.append_nil]
    generalize pyTruthyStr data.client_id = b1
    generalize pyTruthyStr data.listing_id = b2
    generalize pyTruthyStr data.callback_webhook = b3
    generalize pyTruthyStr data.dropbox_refresh_token_encrypted = b4
    generalize pyTruthyStr data.google_drive_refresh_token_encrypted = b5
    generalize pyTruthyStr data.fotello_api_key_encrypted = b6
    generalize pyTruthyStr data.autohdr_api_key_encrypted = b7
    generalize pyTruthyStr data.dropbox_destination_folder = b8
    generalize pyTruthyStr data.google_drive_destination_folder_id = b9
    cases b1 <;> cases b2 <;> cases b3 <;> cases b4 <;> cases b5 <;>
      cases b6 <;> cases b7 <;> cases b8 <;> cases b9 <;> decide

/-- A payload whose storage and enhancement credentials are supplied only
in the nested `storage_credentials` / `enhancement_credentials` form, with
every other mandatory field present. -/
def c2NestedPayload : GatewayData :=
  { client_id := some "client-7", listing_id := some "listing-9",
    callback_webhook := some "https://hooks.example/cb",
    brackets_data := [[()], [()]],
    storage_provider := some "dropbox",
    enhancement_provider := some "fotello",
    dropbox_refresh_token_encrypted := none,
    google_drive_refresh_token_encrypted := none,
    fotello_api_key_encrypted := none,
    autohdr_api_key_encrypted := none,
    dropbox_destination_folder := some "/enhanced",
    google_drive_destination_folder_id := none,
    has_storage_credentials := true,
    has_enhancement_credentials := true }

/-- A payload with every mandatory field in the legacy flat form. -/
def c2FlatPayload : GatewayData :=
  { client_id := some "client-7", listing_id := some "listing-9",
    callback_webhook := some "https://hooks.example/cb",
    brackets_data := [[()], [()]],
    storage_provider := none,
    enhancement_provider := none,
    dropbox_refresh_token_encrypted := some "gAAAAABrefresh",
    google_drive_refresh_token_encrypted := none,
    fotello_api_key_encrypted := some "gAAAAABapikey",
    autohdr_api_key_encrypted := none,
    dropbox_destination_folder := some "/enhanced",
    google_drive_destination_folder_id := none,
    has_storage_credentials := false,
    has_enhancement_credentials := false }

/-- `c2FlatPayload` with `listing_id` missing. -/
def c2MissingPayload : GatewayData :=
  { c2FlatPayload with listing_id := none }

/-- **C2 counterexample.** The claim admits credentials "in either the
legacy flat form or the nested `storage_credentials` form", but
`_validate_required_fields` checks only the flat
`*_refresh_token_encrypted` / `*_api_key_encrypted` fields: a payload
carrying its credentials solely in the nested form (and every other
mandatory field) is rejected with 400 and never dispatched, even though
decryption (`decrypt_credentials` does support the nested shape), the
app-key check and the process URL would all succeed. -/
theorem gateway_nested_form_rejected :
    claimMandatoryFields c2NestedPayload ∧
    (gatewayMain c2NestedPayload (.ok ⟨some "dropboxappkey12345"⟩)
      (some "https://process.fn")).statusCode = 400 ∧
    (gatewayMain c2NestedPayload (.ok ⟨some "dropboxappkey12345"⟩)
      (some "https://process.fn")).dispatched = false := by
  decide

/-- **C2 (amended).** Gateway validation recognises mandatory credentials
only in the legacy flat encrypted form.  For every payload carrying
`client_id`, `listing_id`, `callback_webhook`, non-empty `brackets_data`,
a flat encrypted storage credential for one of the two backends, a flat
encrypted enhancement credential for one of the two backends and a
destination folder: `_validate_required_fields` reports nothing missing,
and — provided credential decryption succeeds, the decrypted dropbox app
key passes its length check when the storage provider is dropbox, and
`PROCESS_FUNCTION_URL` is configured — the gateway responds 202 with
status `dispatched` and dispatches the process stage.  For every payload
missing one of those mandatory fields it responds 400 with a structured
error body and does not dispatch. -/
theorem gateway_dispatch_decision (data : GatewayData)
    (dec : Except String DecryptedGW) (url : Option String) :
    (flatMandatoryFields data →
      _validate_required_fields data = [] ∧
      ∀ d, dec = Except.ok d →
        ((_detect_providers data).1 = some "dropbox" →
          pyTruthyStr d.dropbox_app_key = true ∧
          10 ≤ (stripWs (d.dropbox_app_key.getD "").toList).length) →
        pyTruthyStr url = true →
        gatewayMain data dec url = ⟨202, some "dispatched", none, true⟩) ∧
    (¬ flatMandatoryFields data →
      (gatewayMain data dec url).statusCode = 400 ∧
      (gatewayMain data dec url).body_error ≠ none ∧
      (gatewayMain data dec url).dispatched = false) := by
  constructor
  · intro hflat
    have hval : _validate_required_fields data = [] :=
      (validate_eq_nil_iff data).mpr hflat
    refine ⟨hval, ?_⟩
    intro d hdec hdbx hurl
    rw [gatewayMain.eq_def, if_neg (fun hc => hc hflat.1), hdec]
    simp only [hval]
    rw [if_neg (fun hc : ¬([] : List String) = [] => hc rfl)]
    rw [if_neg ?_, if_neg (fun hc => hc hurl)]
    rintro ⟨hsp, hbad⟩
    obtain ⟨htr, hlen⟩ := hdbx hsp
    rcases hbad with hb | hb
    · exact hb htr
    · omega
  · intro hflat
    by_cases hcl : pyTruthyStr data.client_id = true
    · have hval : _validate_required_fields data ≠ [] := by
        intro he
        exact hflat ((validate_eq_nil_iff data).mp he)
      rw [gatewayMain.eq_def, if_neg (fun hc => hc hcl), if_pos hval]
      exact ⟨rfl, by simp, rfl⟩
    · rw [gatewayMain.eq_def, if_pos hcl]
      exact ⟨rfl, by simp, rfl⟩

/-- Witness for `gateway_dispatch_decision`: the flat-form payload is
dispatched with 202 when decryption yields a valid app key and the process
URL is configured; the same payload without `listing_id` gets 400 and no
dispatch. -/
theorem gateway_dispatch_decision_witness :
    gatewayMain c2FlatPayload (.ok ⟨some "dropboxappkey12345"⟩)
        (some "https://process.fn") = ⟨202, some "dispatched", none, true⟩ ∧
    ((gatewayMain c2MissingPayload (.ok ⟨some "dropboxappkey12345"⟩)
        (some "https://process.fn")).statusCode = 400 ∧
      (gatewayMain c2MissingPayload (.ok ⟨some "dropboxappkey12345"⟩)
        (some "https://process.fn")).body_error ≠ none ∧
      (gatewayMain c2MissingPayload (.ok ⟨some "dropboxappkey12345"⟩)
        (some "https://process.fn")).dispatched = false) :=
  ⟨((gateway_dispatch_decision c2FlatPayload
        (.ok ⟨some "dropboxappkey12345"⟩) (some "https://process.fn")).1
      (by decide)).2 ⟨some "dropboxappkey12345"⟩ rfl (by decide) (by decide),
   (gateway_dispatch_decision c2MissingPayload
        (.ok ⟨some "dropboxappkey12345"⟩) (some "https://process.fn")).2
      (by decide)⟩

/-! ## lib/shared/config/credentials.py — `mask_credentials`

The frame claim is about Python object identity, so dictionaries live on an
explicit heap: a value is a string or a reference to a heap cell; a cell
holds an insertion-ordered association list (Python dict); `data.copy()`
allocates a fresh cell, `masked[k] = v` writes a cell in place.  Every
heap write `mask_credentials` performs is then visible in the model, and
the claim that the argument (and the cells reachable from it) survives
unchanged is a statement about the pre-existing cells of the heap. -/

inductive PyVal
  | str (s : String)
  | ref (a : Nat)
deriving DecidableEq, Repr

/-- A Python dict: insertion-ordered association list with unique keys. -/
abbrev PyDict := List (String × PyVal)

/-- The heap: cell `a` is `h[a]`; allocation appends. -/
abbrev Heap := List PyDict

def heapGet (h : Heap) (a : Nat) : PyDict := h[a]?.getD []

/-- `d[k]` / `k in d` / `d.get(k)`. -/
def dictGet? (d : PyDict) (k : String) : Option PyVal :=
  (d.find? fun kv => kv.1 = k).map fun kv => kv.2

/-- `d[k] = v`: overwrite in place when the key exists, append otherwise. -/
def dictSet (d : PyDict) (k : String) (v : PyVal) : PyDict :=
  if (d.find? fun kv => kv.1 = k).isSome then
    d.map fun kv => if kv.1 = k then (k, v) else kv
  else d ++ [(k, v)]

/-- Python truthiness of a dict value: a string is truthy when non-empty,
a dict when non-empty. -/
def pyTruthyVal (h : Heap) : PyVal → Bool
  | .str s => s ≠ ""
  | .ref a => heapGet h a ≠ []

/-- The `sensitive_fields` list of `mask_credentials`. -/
def sensitive_fields : List String :=
  ["dropbox_app_key", "dropbox_app_secret", "dropbox_refresh_token",
   "fotello_api_key", "autohdr_api_key",
   "google_drive_client_id", "google_drive_client_secret",
   "google_drive_refresh_token",
   "api_key", "access_token", "refresh_token", "client_secret"]

/-- The masked replacement for a truthy sensitive string:
`f"{value[:4]}...{value[-4:]}"` when longer than 8 characters, else
`"***"`. -/
def maskStr (s : String) : String :=
  if 8 < s.length then
    String.mk (s.toList.take 4) ++ "..." ++ String.mk (s.toList.drop (s.length - 4))
  else "***"

/-- One iteration of the `for field in sensitive_fields` loop: a present,
truthy sensitive field of cell `m` is overwritten with its mask (a
non-string truthy value becomes `"***"`). -/
def maskFieldStep (m : Nat) (h : Heap) (f : String) : Heap :=
  let d := heapGet h m
  match dictGet? d f with
  | none => h
  | some v =>
    if pyTruthyVal h v then
      match v with
      | .str s => h.set m (dictSet d f (.str (maskStr s)))
      | _ => h.set m (dictSet d f (.str "***"))
    else h

/-- The `for field in sensitive_fields` loop over cell `m`. -/
def maskFieldsLoop (m : Nat) : Heap → List String → Heap
  | h, [] => h
  | h, f :: rest => maskFieldsLoop m (maskFieldStep m h f) rest

/-- One iteration of the nested-credentials loop: when key `k` of cell `m`
holds a dict reference, replace it with the result of the recursive call
`rec` (the heap effects of the call included). -/
def maskNestedStep (rec : Heap → PyVal → Heap × PyVal) (m : Nat) (k : String)
    (h : Heap) : Heap :=
  match dictGet? (heapGet h m) k with
  | some (.ref b) =>
    let r := rec h (.ref b)
    r.1.set m (dictSet (heapGet r.1 m) k r.2)
  | _ => h

/-- `mask_credentials` from `credentials.py`.  A non-dict argument is
returned unchanged; for a dict, `masked = data.copy()` allocates a fresh
cell, the sensitive-field loop masks it in place, and the
`for nested_key in ['storage_credentials', 'enhancement_credentials']`
loop (unrolled over its two-element literal list) replaces each nested
dict value with a recursive call's result.  `fuel` bounds the recursion
depth (the source recurses unboundedly; any fuel beyond the reference
nesting depth is enough, and the frame results below hold for every
fuel). -/
def maskRefStep (rec : Heap → PyVal → Heap × PyVal) (h : Heap) (a : Nat) :
    Heap :=
  maskNestedStep rec h.length "enhancement_credentials"
    (maskNestedStep rec h.length "storage_credentials"
      (maskFieldsLoop h.length (h ++ [heapGet h a]) sensitive_fields))

def mask_credentials : Nat → Heap → PyVal → Heap × PyVal
  | 0, h, v => (h, v)
  | fuel + 1, h, v =>
    match v with
    | .str s => (h, .str s)
    | .ref a => (maskRefStep (mask_credentials fuel) h a, .ref h.length)

/-! ### Heap and dict lemmas -/

theorem take_set_of_le {h : Heap} {n i : Nat} {d : PyDict} (hni : n ≤ i) :
    (h.set i d).take n = h.take n := by
  apply List.ext_getElem?
  intro j
  by_cases hj : j < n
  · rw [List.getElem?_take, if_pos hj, List.getElem?_take, if_pos hj,
      List.getElem?_set_ne (by omega)]
  · rw [List.getElem?_take, if_neg hj, List.getElem?_take, if_neg hj]

theorem heapGet_of_take_eq {h h' : Heap} {n a : Nat}
    (ht : h'.take n = h.take n) (ha : a < n) : heapGet h' a = heapGet h a := by
  unfold heapGet
  have h1 : (h'.take n)[a]? = h'[a]? := by rw [List.getElem?_take, if_pos ha]
  have h2 : (h.take n)[a]? = h[a]? := by rw [List.getElem?_take, if_pos ha]
  rw [← h1, ← h2, ht]

theorem heapGet_append_length (h : Heap) (d : PyDict) :
    heapGet (h ++ [d]) h.length = d := by
  unfold heapGet
  rw [List.getElem?_concat_length]
  rfl

theorem heapGet_set_self {h : Heap} {m : Nat} {d : PyDict} (hm : m < h.length) :
    heapGet (h.set m d) m = d := by
  unfold heapGet
  rw [List.getElem?_set_self hm]
  rfl

theorem heapGet_set_ne {h : Heap} {m j : Nat} {d : PyDict} (hne : m ≠ j) :
    heapGet (h.set m d) j = heapGet h j := by
  unfold heapGet
  rw [List.getElem?_set_ne hne]

theorem dictSet_cons_ne {kv : String × PyVal} {rest : PyDict} {k : String}
    {v : PyVal} (hk : ¬kv.1 = k) :
    dictSet (kv :: rest) k v = kv :: dictSet rest k v := by
  simp only [dictSet, List.find?, hk]
  by_cases hr : (rest.find? fun kv => kv.1 = k).isSome
  · simp [hr, hk]
  · simp [hr]

theorem dictGet?_dictSet_self (d : PyDict) (k : String) (v : PyVal) :
    dictGet? (dictSet d k v) k = some v := by
  induction d with
  | nil => simp [dictSet, dictGet?]
  | cons kv rest ih =>
    by_cases hk : kv.1 = k
    · simp [dictSet, dictGet?, List.find?, hk]
    · rw [dictSet_cons_ne hk]
      simp only [dictGet?, List.find?, hk]
      simpa [dictGet?] using ih

theorem find?_map_mask {rest : PyDict} {k k' : String} {v : PyVal}
    (hne : k' ≠ k) :
    (rest.map fun kv => if kv.1 = k' then (k', v) else kv).find?
        (fun kv => kv.1 = k) = rest.find? (fun kv => kv.1 = k) := by
  induction rest with
  | nil => rfl
  | cons kv2 rest2 ih =>
    by_cases hk2 : kv2.1 = k'
    · have hne2 : ¬kv2.1 = k := by rw [hk2]; exact hne
      simp only [List.map_cons, if_pos hk2, List.find?]
      simp only [hne2, hne, decide_eq_true_eq]
      simpa using ih
    · simp only [List.map_cons, if_neg hk2, List.find?]
      by_cases hk3 : kv2.1 = k
      · simp [hk3]
      · simp only [hk3]
        simpa using ih

theorem dictGet?_dictSet_ne (d : PyDict) {k k' : String} (v : PyVal)
    (hne : k' ≠ k) : dictGet? (dictSet d k' v) k = dictGet? d k := by
  induction d with
  | nil => simp [dictSet, dictGet?, List.find?, hne]
  | cons kv rest ih =>
    by_cases hk : kv.1 = k'
    · simp only [dictSet, List.find?, hk, Option.isSome_some, if_true]
      unfold dictGet?
      simp only [List.map_cons, if_pos hk, List.find?]
      have hne2 : ¬kv.1 = k := by rw [hk]; exact hne
      simp only [hne2, hne, decide_eq_true_eq]
      rw [find?_map_mask hne]
      simp
    · rw [dictSet_cons_ne hk]
      by_cases hkk : kv.1 = k
      · simp [dictGet?, List.find?, hkk]
      · simp only [dictGet?, List.find?, hkk]
        simpa [dictGet?] using ih

/-! ### Frame and content lemmas for `mask_credentials` -/

theorem maskFieldStep_eq (m : Nat) (h : Heap) (f : String) :
    maskFieldStep m h f = h ∨
    ∃ x : String,
      maskFieldStep m h f = h.set m (dictSet (heapGet h m) f (.str x)) := by
  unfold maskFieldStep
  simp only []
  split
  · exact Or.inl rfl
  · split
    · split
      · exact Or.inr ⟨maskStr _, rfl⟩
      · exact Or.inr ⟨"***", rfl⟩
    · exact Or.inl rfl

theorem maskFieldStep_of_str {m : Nat} {h : Heap} {f : String} {s : String}
    (hf : dictGet? (heapGet h m) f = some (.str s)) (hs : s ≠ "") :
    maskFieldStep m h f = h.set m (dictSet (heapGet h m) f (.str (maskStr s))) := by
  unfold maskFieldStep
  simp only [hf]
  rw [if_pos (by simpa [pyTruthyVal] using hs)]

theorem length_maskFieldStep (m : Nat) (h : Heap) (f : String) :
    (maskFieldStep m h f).length = h.length := by
  rcases maskFieldStep_eq m h f with he | ⟨x, he⟩ <;> simp [he]

theorem take_maskFieldStep {m n : Nat} (h : Heap) (f : String) (hnm : n ≤ m) :
    (maskFieldStep m h f).take n = h.take n := by
  rcases maskFieldStep_eq m h f with he | ⟨x, he⟩
  · rw [he]
  · rw [he, take_set_of_le hnm]

theorem length_maskFieldsLoop (m : Nat) :
    ∀ (fs : List String) (h : Heap), (maskFieldsLoop m h fs).length = h.length := by
  intro fs
  induction fs with
  | nil => intro h; rfl
  | cons f rest ih =>
    intro h
    show (maskFieldsLoop m (maskFieldStep m h f) rest).length = h.length
    rw [ih, length_maskFieldStep]

theorem take_maskFieldsLoop {m n : Nat} (hnm : n ≤ m) :
    ∀ (fs : List String) (h : Heap),
      (maskFieldsLoop m h fs).take n = h.take n := by
  intro fs
  induction fs with
  | nil => intro h; rfl
  | cons f rest ih =>
    intro h
    show (maskFieldsLoop m (maskFieldStep m h f) rest).take n = h.take n
    rw [ih, take_maskFieldStep h f hnm]

theorem dictGet?_maskFieldStep_ne {m : Nat} {h : Heap} {f g : String}
    (hfg : f ≠ g) (hm : m < h.length) :
    dictGet? (heapGet (maskFieldStep m h f) m) g = dictGet? (heapGet h m) g := by
  rcases maskFieldStep_eq m h f with he | ⟨x, he⟩
  · rw [he]
  · rw [he, heapGet_set_self hm, dictGet?_dictSet_ne _ _ hfg]

theorem dictGet?_maskFieldsLoop_not_mem {m : Nat} {g : String} :
    ∀ (fs : List String) (h : Heap), g ∉ fs → m < h.length →
      dictGet? (heapGet (maskFieldsLoop m h fs) m) g =
        dictGet? (heapGet h m) g := by
  intro fs
  induction fs with
  | nil => intro h _ _; rfl
  | cons f rest ih =>
    intro h hg hm
    show dictGet? (heapGet (maskFieldsLoop m (maskFieldStep m h f) rest) m) g = _
    rw [ih (maskFieldStep m h f) (fun hc => hg (List.mem_cons_of_mem f hc))
      (by rw [length_maskFieldStep]; exact hm)]
    exact dictGet?_maskFieldStep_ne (fun hc => hg (hc ▸ List.mem_cons_self f rest)) hm

theorem dictGet?_maskFieldsLoop_mem {m : Nat} {f : String} {s : String} :
    ∀ (fs : List String) (h : Heap), fs.Nodup → f ∈ fs → m < h.length →
      dictGet? (heapGet h m) f = some (.str s) → s ≠ "" →
      dictGet? (heapGet (maskFieldsLoop m h fs) m) f =
        some (.str (maskStr s)) := by
  intro fs
  induction fs with
  | nil => intro h _ hf; cases hf
  | cons g rest ih =>
    intro h hnd hf hm hval hs
    by_cases hfg : f = g
    · subst hfg
      show dictGet? (heapGet (maskFieldsLoop m (maskFieldStep m h f) rest) m) f = _
      have hstep := maskFieldStep_of_str hval hs
      have hnotin : f ∉ rest := (List.nodup_cons.mp hnd).1
      rw [dictGet?_maskFieldsLoop_not_mem rest _ hnotin
        (by rw [length_maskFieldStep]; exact hm)]
      rw [hstep, heapGet_set_self hm, dictGet?_dictSet_self]
    · have hf' : f ∈ rest := by
        rcases List.mem_cons.mp hf with hc | hc
        · exact absurd hc hfg
        · exact hc
      show dictGet? (heapGet (maskFieldsLoop m (maskFieldStep m h g) rest) m) f = _
      refine ih (maskFieldStep m h g) (List.nodup_cons.mp hnd).2 hf'
        (by rw [length_maskFieldStep]; exact hm) ?_ hs
      rw [dictGet?_maskFieldStep_ne (fun hc => hfg hc.symm) hm]
      exact hval

theorem maskNestedStep_spec (rec : Heap → PyVal → Heap × PyVal) (m : Nat)
    (k : String) (h : Heap) (n : Nat) (hn : n ≤ m) (hm : m < h.length)
    (hrec : ∀ (v : PyVal) (n' : Nat), n' ≤ h.length →
      (rec h v).1.take n' = h.take n' ∧ h.length ≤ (rec h v).1.length) :
    (maskNestedStep rec m k h).take n = h.take n ∧
    h.length ≤ (maskNestedStep rec m k h).length := by
  unfold maskNestedStep
  cases hv : dictGet? (heapGet h m) k with
  | none => exact ⟨rfl, Nat.le_refl _⟩
  | some v =>
    cases v with
    | str s => exact ⟨rfl, Nat.le_refl _⟩
    | ref b =>
      simp only []
      obtain ⟨ht, hl⟩ := hrec (.ref b) n (le_trans hn (Nat.le_of_lt hm))
      constructor
      · rw [take_set_of_le hn, ht]
      · rw [List.length_set]
        exact hl

theorem mask_frame :
    ∀ (fuel : Nat) (h : Heap) (v : PyVal) (n : Nat), n ≤ h.length →
      (mask_credentials fuel h v).1.take n = h.take n ∧
      h.length ≤ (mask_credentials fuel h v).1.length := by
  intro fuel
  induction fuel with
  | zero => intro h v n hn; exact ⟨rfl, Nat.le_refl _⟩
  | succ fuel ih =>
    intro h v n hn
    cases v with
    | str s => exact ⟨rfl, Nat.le_refl _⟩
    | ref a =>
      have heq : mask_credentials (fuel + 1) h (.ref a) =
          (maskRefStep (mask_credentials fuel) h a, .ref h.length) := by
        rw [mask_credentials]
      rw [heq]
      dsimp only
      unfold maskRefStep
      set h1 := h ++ [heapGet h a] with hh1
      set h2 := maskFieldsLoop h.length h1 sensitive_fields with hh2
      have hl2 : h2.length = h.length + 1 := by
        rw [hh2, length_maskFieldsLoop, hh1]
        simp
      have ht2 : h2.take n = h.take n := by
        rw [hh2, take_maskFieldsLoop hn sensitive_fields h1, hh1,
          List.take_append_of_le_length hn]
      obtain ⟨ht3, hl3⟩ := maskNestedStep_spec (mask_credentials fuel) h.length
        "storage_credentials" h2 n hn (by omega)
        (fun v' n' hn' => ih h2 v' n' hn')
      set h3 := maskNestedStep (mask_credentials fuel) h.length
        "storage_credentials" h2 with hh3
      obtain ⟨ht4, hl4⟩ := maskNestedStep_spec (mask_credentials fuel) h.length
        "enhancement_credentials" h3 n hn (by omega)
        (fun v' n' hn' => ih h3 v' n' hn')
      exact ⟨by rw [ht4, ht3, ht2], by omega⟩

theorem dictGet?_maskNestedStep_ne (rec : Heap → PyVal → Heap × PyVal)
    {m : Nat} {k g : String} {h : Heap} (hgk : g ≠ k) (hm : m < h.length)
    (hrec : ∀ (v : PyVal) (n' : Nat), n' ≤ h.length →
      (rec h v).1.take n' = h.take n' ∧ h.length ≤ (rec h v).1.length) :
    dictGet? (heapGet (maskNestedStep rec m k h) m) g =
      dictGet? (heapGet h m) g := by
  unfold maskNestedStep
  cases hv : dictGet? (heapGet h m) k with
  | none => rfl
  | some v =>
    cases v with
    | str s => rfl
    | ref b =>
      simp only []
      obtain ⟨ht, hl⟩ := hrec (.ref b) (m + 1) hm
      rw [heapGet_set_self (by omega)]
      rw [dictGet?_dictSet_ne _ _ (fun hc => hgk hc.symm)]
      rw [heapGet_of_take_eq ht (Nat.lt_succ_self m)]

theorem heapGet_maskNestedStep_ne (rec : Heap → PyVal → Heap × PyVal)
    {m : Nat} {k : String} {h : Heap} {j : Nat} (hj : j ≠ m) (hjl : j < h.length)
    (hrec : ∀ (v : PyVal) (n' : Nat), n' ≤ h.length →
      (rec h v).1.take n' = h.take n' ∧ h.length ≤ (rec h v).1.length) :
    heapGet (maskNestedStep rec m k h) j = heapGet h j := by
  unfold maskNestedStep
  cases hv : dictGet? (heapGet h m) k with
  | none => rfl
  | some v =>
    cases v with
    | str s => rfl
    | ref b =>
      simp only []
      rw [heapGet_set_ne (fun hc => hj hc.symm)]
      exact heapGet_of_take_eq (hrec (.ref b) h.length (Nat.le_refl _)).1 hjl

theorem mask_snd (fuel : Nat) (h : Heap) (a : Nat) (hfuel : 0 < fuel) :
    (mask_credentials fuel h (.ref a)).2 = .ref h.length := by
  cases fuel with
  | zero => omega
  | succ fuel =>
    have heq : mask_credentials (fuel + 1) h (.ref a) =
        (maskRefStep (mask_credentials fuel) h a, .ref h.length) := by
      rw [mask_credentials]
    rw [heq]

/-- After `mask_credentials` on a dict at cell `a`, the fresh result cell
(at the old heap length) carries the masked value of every present,
truthy, sensitive string field. -/
theorem mask_field_masked :
    ∀ (fuel : Nat) (h : Heap) (a : Nat) (f s : String), 0 < fuel →
      a < h.length → f ∈ sensitive_fields →
      dictGet? (heapGet h a) f = some (.str s) → s ≠ "" →
      dictGet? (heapGet (mask_credentials fuel h (.ref a)).1 h.length) f =
        some (.str (maskStr s)) := by
  intro fuel h a f s hfuel ha hf hval hs
  cases fuel with
  | zero => omega
  | succ fuel =>
    have heq : mask_credentials (fuel + 1) h (.ref a) =
        (maskRefStep (mask_credentials fuel) h a, .ref h.length) := by
      rw [mask_credentials]
    rw [heq]
    dsimp only
    unfold maskRefStep
    set h1 := h ++ [heapGet h a] with hh1
    set h2 := maskFieldsLoop h.length h1 sensitive_fields with hh2
    have hl1 : h1.length = h.length + 1 := by rw [hh1]; simp
    have hl2 : h2.length = h.length + 1 := by
      rw [hh2, length_maskFieldsLoop, hl1]
    have hget1 : heapGet h1 h.length = heapGet h a := heapGet_append_length h _
    have hmask2 : dictGet? (heapGet h2 h.length) f = some (.str (maskStr s)) := by
      rw [hh2]
      refine dictGet?_maskFieldsLoop_mem sensitive_fields h1 (by decide) hf
        (by omega) ?_ hs
      rw [hget1]
      exact hval
    have hfne : f ≠ "storage_credentials" ∧ f ≠ "enhancement_credentials" := by
      have hall : ∀ g ∈ sensitive_fields,
          g ≠ "storage_credentials" ∧ g ≠ "enhancement_credentials" := by decide
      exact hall f hf
    obtain ⟨_, hl3⟩ := maskNestedStep_spec (mask_credentials fuel) h.length
      "storage_credentials" h2 0 (Nat.zero_le _) (by omega)
      (fun v' n' hn' => mask_frame fuel h2 v' n' hn')
    set h3 := maskNestedStep (mask_credentials fuel) h.length
      "storage_credentials" h2 with hh3
    have hmask3 : dictGet? (heapGet h3 h.length) f = some (.str (maskStr s)) := by
      rw [hh3, dictGet?_maskNestedStep_ne (mask_credentials fuel) hfne.1
        (by omega) (fun v' n' hn' => mask_frame fuel h2 v' n' hn')]
      exact hmask2
    rw [dictGet?_maskNestedStep_ne (mask_credentials fuel) hfne.2
      (by omega) (fun v' n' hn' => mask_frame fuel h3 v' n' hn')]
    exact hmask3

theorem heapGet_append_lt {h : Heap} {d : PyDict} {j : Nat}
    (hj : j < h.length) : heapGet (h ++ [d]) j = heapGet h j := by
  unfold heapGet
  rw [List.getElem?_append, if_pos hj]

theorem mask_ref_length (fuel : Nat) (h : Heap) (a : Nat) (hfuel : 0 < fuel) :
    h.length < (mask_credentials fuel h (.ref a)).1.length := by
  cases fuel with
  | zero => omega
  | succ fuel =>
    have heq : mask_credentials (fuel + 1) h (.ref a) =
        (maskRefStep (mask_credentials fuel) h a, .ref h.length) := by
      rw [mask_credentials]
    rw [heq]
    dsimp only
    unfold maskRefStep
    set h1 := h ++ [heapGet h a] with hh1
    set h2 := maskFieldsLoop h.length h1 sensitive_fields with hh2
    have hl2 : h2.length = h.length + 1 := by
      rw [hh2, length_maskFieldsLoop, hh1]
      simp
    obtain ⟨_, hl3⟩ := maskNestedStep_spec (mask_credentials fuel) h.length
      "storage_credentials" h2 0 (Nat.zero_le _) (by omega)
      (fun v' n' hn' => mask_frame fuel h2 v' n' hn')
    set h3 := maskNestedStep (mask_credentials fuel) h.length
      "storage_credentials" h2 with hh3
    obtain ⟨_, hl4⟩ := maskNestedStep_spec (mask_credentials fuel) h.length
      "enhancement_credentials" h3 0 (Nat.zero_le _) (by omega)
      (fun v' n' hn' => mask_frame fuel h3 v' n' hn')
    omega

/-- The nested-credentials recursion, one level deep: when the input dict
holds `storage_credentials ↦ ref b`, the masked copy points that key at a
*fresh* cell (`h.length + 1`, distinct from every pre-existing cell, `b`
included) whose dict carries the masked sensitive fields of cell `b`. -/
theorem mask_nested_masked (fuel : Nat) (h : Heap) (a b : Nat) (f s : String)
    (hfuel : 1 < fuel) (ha : a < h.length) (hb : b < h.length)
    (hnest : dictGet? (heapGet h a) "storage_credentials" = some (.ref b))
    (hf : f ∈ sensitive_fields)
    (hval : dictGet? (heapGet h b) f = some (.str s)) (hs : s ≠ "") :
    dictGet? (heapGet (mask_credentials fuel h (.ref a)).1 h.length)
        "storage_credentials" = some (.ref (h.length + 1)) ∧
    dictGet? (heapGet (mask_credentials fuel h (.ref a)).1 (h.length + 1)) f =
      some (.str (maskStr s)) := by
  cases fuel with
  | zero => omega
  | succ fuel =>
    have hfuel0 : 0 < fuel := by omega
    have heq : mask_credentials (fuel + 1) h (.ref a) =
        (maskRefStep (mask_credentials fuel) h a, .ref h.length) := by
      rw [mask_credentials]
    rw [heq]
    dsimp only
    unfold maskRefStep
    set h1 := h ++ [heapGet h a] with hh1
    set h2 := maskFieldsLoop h.length h1 sensitive_fields with hh2
    have hl1 : h1.length = h.length + 1 := by rw [hh1]; simp
    have hl2 : h2.length = h.length + 1 := by
      rw [hh2, length_maskFieldsLoop, hl1]
    have hget1 : heapGet h1 h.length = heapGet h a := heapGet_append_length h _
    have hkey2 : dictGet? (heapGet h2 h.length) "storage_credentials" =
        some (.ref b) := by
      rw [hh2, dictGet?_maskFieldsLoop_not_mem sensitive_fields h1 (by decide)
        (by omega), hget1]
      exact hnest
    have hcell2b : heapGet h2 b = heapGet h b := by
      have e1 : heapGet h2 b = heapGet h1 b :=
        heapGet_of_take_eq
          (take_maskFieldsLoop (Nat.le_refl h.length) sensitive_fields h1) hb
      rw [e1, hh1, heapGet_append_lt hb]
    have hh3eq : maskNestedStep (mask_credentials fuel) h.length
        "storage_credentials" h2 =
        (mask_credentials fuel h2 (.ref b)).1.set h.length
          (dictSet (heapGet (mask_credentials fuel h2 (.ref b)).1 h.length)
            "storage_credentials" (mask_credentials fuel h2 (.ref b)).2) := by
      unfold maskNestedStep
      rw [hkey2]
    have hr2 : (mask_credentials fuel h2 (.ref b)).2 = .ref h2.length :=
      mask_snd fuel h2 b hfuel0
    have hrlen : h2.length < (mask_credentials fuel h2 (.ref b)).1.length :=
      mask_ref_length fuel h2 b hfuel0
    have hrtake : (mask_credentials fuel h2 (.ref b)).1.take h2.length =
        h2.take h2.length :=
      (mask_frame fuel h2 (.ref b) h2.length (Nat.le_refl _)).1
    have hrcontent : dictGet? (heapGet (mask_credentials fuel h2 (.ref b)).1
        h2.length) f = some (.str (maskStr s)) := by
      refine mask_field_masked fuel h2 b f s hfuel0 (by omega) hf ?_ hs
      rw [hcell2b]
      exact hval
    have hrm : heapGet (mask_credentials fuel h2 (.ref b)).1 h.length =
        heapGet h2 h.length :=
      heapGet_of_take_eq hrtake (by omega)
    set h3 := maskNestedStep (mask_credentials fuel) h.length
      "storage_credentials" h2 with hh3
    have hl3 : h3.length = (mask_credentials fuel h2 (.ref b)).1.length := by
      rw [hh3eq, List.length_set]
    have hkey3 : dictGet? (heapGet h3 h.length) "storage_credentials" =
        some (.ref (h.length + 1)) := by
      rw [hh3eq, heapGet_set_self (by omega), dictGet?_dictSet_self, hr2, hl2]
    have hcell3 : heapGet h3 (h.length + 1) =
        heapGet (mask_credentials fuel h2 (.ref b)).1 (h.length + 1) := by
      rw [hh3eq, heapGet_set_ne (by omega)]
    have hcontent3 : dictGet? (heapGet h3 (h.length + 1)) f =
        some (.str (maskStr s)) := by
      rw [hcell3, ← hl2]
      exact hrcontent
    constructor
    · rw [dictGet?_maskNestedStep_ne (mask_credentials fuel) (by decide)
        (by omega) (fun v' n' hn' => mask_frame fuel h3 v' n' hn')]
      exact hkey3
    · rw [heapGet_maskNestedStep_ne (mask_credentials fuel) (by omega)
        (by omega) (fun v' n' hn' => mask_frame fuel h3 v' n' hn')]
      exact hcontent3

/-- **C10.** `mask_credentials` never mutates its argument.  On any heap:
(1) every pre-existing cell — the input dictionary and all nested
dictionaries reachable from it — is unchanged after the call, for every
recursion budget; (2) the result is a reference to a *fresh* cell (the old
heap length), not to any existing dictionary; (3) in that fresh copy every
present, truthy sensitive string field `s` is replaced by `maskStr s`
(`"<first4>...<last4>"` when longer than 8 characters, `"***"`
otherwise); (4) the recursion descends into `storage_credentials`: the
copy's key is re-pointed at a fresh cell (again distinct from every
original cell) whose sensitive string fields are masked the same way.
(`enhancement_credentials` is handled by the identical second loop
iteration.) -/
theorem mask_credentials_no_mutation (fuel : Nat) (h : Heap) (a : Nat) :
    (∀ (v : PyVal) (j : Nat), j < h.length →
      heapGet (mask_credentials fuel h v).1 j = heapGet h j) ∧
    (0 < fuel → (mask_credentials fuel h (.ref a)).2 = .ref h.length) ∧
    (∀ f s : String, 0 < fuel → a < h.length → f ∈ sensitive_fields →
      dictGet? (heapGet h a) f = some (.str s) → s ≠ "" →
      dictGet? (heapGet (mask_credentials fuel h (.ref a)).1 h.length) f =
        some (.str (maskStr s))) ∧
    (∀ (b : Nat) (f s : String), 1 < fuel → a < h.length → b < h.length →
      dictGet? (heapGet h a) "storage_credentials" = some (.ref b) →
      f ∈ sensitive_fields →
      dictGet? (heapGet h b) f = some (.str s) → s ≠ "" →
      dictGet? (heapGet (mask_credentials fuel h (.ref a)).1 h.length)
          "storage_credentials" = some (.ref (h.length + 1)) ∧
      dictGet? (heapGet (mask_credentials fuel h (.ref a)).1 (h.length + 1)) f =
        some (.str (maskStr s))) := by
  refine ⟨?_, mask_snd fuel h a, ?_, ?_⟩
  · intro v j hj
    exact heapGet_of_take_eq (mask_frame fuel h v h.length (Nat.le_refl _)).1 hj
  · intro f s h1 h2 h3 h4 h5
    exact mask_field_masked fuel h a f s h1 h2 h3 h4 h5
  · intro b f s h1 h2 h3 h4 h5 h6 h7
    exact mask_nested_masked fuel h a b f s h1 h2 h3 h4 h5 h6 h7

/-- A concrete two-cell heap: cell 0 is a payload dict with a sensitive
field, a nested `storage_credentials` reference to cell 1, and a short
sensitive field; cell 1 is the nested credential dict. -/
def c10Heap : Heap :=
  [[("listing_id", .str "L1"), ("fotello_api_key", .str "secretvalue123"),
    ("storage_credentials", .ref 1), ("api_key", .str "short")],
   [("refresh_token", .str "rtokenvalue999"), ("app_key", .str "abc")]]

/-- Witness for `mask_credentials_no_mutation` on `c10Heap`: the nested
cell 1 is untouched, the result is the fresh cell 2, `fotello_api_key` is
masked to `secr...e123` in it, and `storage_credentials` is re-pointed at
the fresh cell 3, where `refresh_token` is masked. -/
theorem mask_credentials_no_mutation_witness :
    heapGet (mask_credentials 5 c10Heap (.ref 0)).1 1 = heapGet c10Heap 1 ∧
    (mask_credentials 5 c10Heap (.ref 0)).2 = .ref 2 ∧
    dictGet? (heapGet (mask_credentials 5 c10Heap (.ref 0)).1 2)
      "fotello_api_key" = some (.str (maskStr "secretvalue123")) ∧
    (dictGet? (heapGet (mask_credentials 5 c10Heap (.ref 0)).1 2)
        "storage_credentials" = some (.ref 3) ∧
      dictGet? (heapGet (mask_credentials 5 c10Heap (.ref 0)).1 3)
        "refresh_token" = some (.str (maskStr "rtokenvalue999"))) :=
  ⟨(mask_credentials_no_mutation 5 c10Heap 0).1 (.ref 0) 1 (by decide),
   (mask_credentials_no_mutation 5 c10Heap 0).2.1 (by decide),
   (mask_credentials_no_mutation 5 c10Heap 0).2.2.1 "fotello_api_key"
     "secretvalue123" (by decide) (by decide) (by decide) (by decide) (by decide),
   (mask_credentials_no_mutation 5 c10Heap 0).2.2.2 1 "refresh_token"
     "rtokenvalue999" (by decide) (by decide) (by decide) (by decide)
     (by decide) (by decide) (by decide)⟩

end SnapFlow
